import Mathlib

/-!
# Verification of the blender-convex-decomposition solver-output reconciliation pipeline

This file embeds the core data transformations of the repository
(`convex_decomposition.py`, `mouse_position.py`, `blender2unreal.py`) in Lean 4
and proves/refutes the frozen claims about them.

Modelling conventions:
* Python strings are Lean `String`; `str.startswith(pre)` is modelled by
  `strStartsWith str pre`, a prefix test on the underlying character lists.
* Python `str(i)` for a natural number is modelled by `natStr`, an executable
  decimal renderer (fuel-based, structurally recursive); `str(i)` for `int`
  is `intStr`.
* Filesystem paths (`pathlib.Path`) are lists of path components.
* The Blender scene is a list of objects (name, parent, collections, selected
  flag) together with the active object, the interaction mode and the set of
  scene collections.  Blender object references are modelled by object names;
  the theorems about whole-pipeline runs assume scene object names are
  distinct, which Blender itself enforces.
-/

/-- Model of Python's `str.startswith(pre)`: `pre` is a prefix of `s`. -/
def strStartsWith (s pre : String) : Bool :=
  pre.data.isPrefixOf s.data

/-- Little-endian decimal digits of `n`, with explicit fuel (structural
recursion so that the kernel can evaluate it). -/
def decDigitsAux : Nat → Nat → List Nat
  | 0, _ => []
  | fuel + 1, n => if n = 0 then [] else (n % 10) :: decDigitsAux fuel (n / 10)

/-- Decode little-endian decimal digits back to a number. -/
def decValue : List Nat → Nat
  | [] => 0
  | d :: ds => d + 10 * decValue ds

/-- The character for a single decimal digit. -/
def decDigitChar (d : Nat) : Char :=
  Char.ofNat (48 + d)

/-- Model of Python's `str(n)` for a non-negative integer: decimal rendering,
most significant digit first. -/
def natStr (n : Nat) : String :=
  if n = 0 then "0" else ⟨((decDigitsAux n n).map decDigitChar).reverse⟩

/-- Model of Python's `str(i)` for an `int`. -/
def intStr (i : Int) : String :=
  if i < 0 then "-" ++ natStr i.natAbs else natStr i.natAbs

theorem decValue_decDigitsAux {fuel n : Nat} (h : n ≤ fuel) :
    decValue (decDigitsAux fuel n) = n := by
  induction fuel generalizing n with
  | zero => interval_cases n; rfl
  | succ f ih =>
    by_cases h0 : n = 0
    · subst h0; simp [decDigitsAux, decValue]
    · have hdiv : n / 10 ≤ f := by
        have : n / 10 < n := Nat.div_lt_self (Nat.pos_of_ne_zero h0) (by norm_num)
        omega
      simp only [decDigitsAux, h0, if_false, decValue, ih hdiv]
      omega

theorem decDigitsAux_lt (fuel n : Nat) :
    ∀ d ∈ decDigitsAux fuel n, d < 10 := by
  induction fuel generalizing n with
  | zero => simp [decDigitsAux]
  | succ f ih =>
    by_cases h0 : n = 0
    · simp [decDigitsAux, h0]
    · simp only [decDigitsAux, h0, if_false, List.mem_cons]
      rintro d (rfl | hd)
      · exact Nat.mod_lt _ (by norm_num)
      · exact ih _ _ hd

theorem decDigitChar_inj {a b : Nat} (ha : a < 10) (hb : b < 10)
    (h : decDigitChar a = decDigitChar b) : a = b := by
  interval_cases a <;> interval_cases b <;> simp_all [decDigitChar]

theorem map_decDigitChar_inj : ∀ {l1 l2 : List Nat}, (∀ d ∈ l1, d < 10) →
    (∀ d ∈ l2, d < 10) → l1.map decDigitChar = l2.map decDigitChar → l1 = l2
  | [], [], _, _, _ => rfl
  | [], _ :: _, _, _, h => by simp at h
  | _ :: _, [], _, _, h => by simp at h
  | a :: l1, b :: l2, h1, h2, h => by
    simp only [List.map_cons, List.cons.injEq] at h
    have hab := decDigitChar_inj (h1 a (List.mem_cons_self ..))
      (h2 b (List.mem_cons_self ..)) h.1
    have ht := map_decDigitChar_inj (fun d hd => h1 d (List.mem_cons_of_mem _ hd))
      (fun d hd => h2 d (List.mem_cons_of_mem _ hd)) h.2
    rw [hab, ht]

theorem natStr_ne_zero_render {n : Nat} (hn : n ≠ 0)
    (h : ((decDigitsAux n n).map decDigitChar).reverse = ['0']) : False := by
  have hmap : (decDigitsAux n n).map decDigitChar = ['0'] := by
    have := congrArg List.reverse h
    simpa using this
  have hzero : decDigitsAux n n = [0] := by
    refine map_decDigitChar_inj (decDigitsAux_lt n n) ?_ ?_
    · intro d hd; simp at hd; omega
    · simpa using hmap
  have hv := decValue_decDigitsAux (le_refl n)
  rw [hzero] at hv
  simp [decValue] at hv
  omega

theorem natStr_injective : Function.Injective natStr := by
  intro a b h
  unfold natStr at h
  rw [String.ext_iff] at h
  by_cases ha : a = 0 <;> by_cases hb : b = 0
  · omega
  · exfalso
    simp only [ha, if_true, hb, if_false] at h
    exact natStr_ne_zero_render hb (by simpa using h.symm)
  · exfalso
    simp only [ha, if_false, hb, if_true] at h
    exact natStr_ne_zero_render ha (by simpa using h)
  · simp only [ha, if_false, hb, if_false] at h
    have hrev : (decDigitsAux a a).map decDigitChar
        = (decDigitsAux b b).map decDigitChar := by
      have := congrArg List.reverse h
      simpa using this
    have hlists : decDigitsAux a a = decDigitsAux b b :=
      map_decDigitChar_inj (decDigitsAux_lt a a) (decDigitsAux_lt b b) hrev
    calc a = decValue (decDigitsAux a a) := (decValue_decDigitsAux (le_refl a)).symm
      _ = decValue (decDigitsAux b b) := by rw [hlists]
      _ = b := decValue_decDigitsAux (le_refl b)

/-! ### Models of the Python string primitives used by the add-on

`int(tok)`, `str.split()` (whitespace split discarding empty fields) and
`" ".join(tokens)` are modelled over the underlying character lists, restricted
to the single-space whitespace that the OBJ interchange files use. -/

/-- The numeric value of a decimal digit character, `none` for non-digits. -/
def digitVal (c : Char) : Option Nat :=
  if 48 ≤ c.toNat ∧ c.toNat ≤ 57 then some (c.toNat - 48) else none

/-- Accumulate decimal digit characters (most significant first) into a
number; `none` as soon as a non-digit appears. -/
def natOfDigits : Nat → List Char → Option Nat
  | acc, [] => some acc
  | acc, c :: cs =>
    match digitVal c with
    | some d => natOfDigits (acc * 10 + d) cs
    | none => none

/-- Model of Python's `int(tok)` on a character list: optional leading minus
sign followed by at least one decimal digit. -/
def pyIntOfChars : List Char → Option Int
  | [] => none
  | c :: rest =>
    if c = '-' then
      if rest = [] then none
      else (natOfDigits 0 rest).map (fun n => -(n : Int))
    else (natOfDigits 0 (c :: rest)).map (fun n => (n : Int))

/-- Model of Python's `int(tok)` for a string token. -/
def pyInt (s : String) : Option Int :=
  pyIntOfChars s.data

/-- Whitespace split of a character list with explicit fuel: maximal runs of
non-space characters, space runs discarded (Python's `str.split()`). -/
def splitWSAux : Nat → List Char → List (List Char)
  | 0, _ => []
  | _ + 1, [] => []
  | fuel + 1, c :: cs =>
    if c = ' ' then splitWSAux fuel cs
    else (c :: cs.takeWhile (· != ' ')) :: splitWSAux fuel (cs.dropWhile (· != ' '))

/-- Model of Python's `str.split()` on a string. -/
def pySplit (s : String) : List String :=
  (splitWSAux s.data.length s.data).map (fun l => ⟨l⟩)

/-- `' '`-separated join of character lists. -/
def joinSep : List (List Char) → List Char
  | [] => []
  | [t] => t
  | t :: t2 :: ts => t ++ ' ' :: joinSep (t2 :: ts)

/-- Model of Python's `" ".join(tokens)`. -/
def joinSpace (ts : List String) : String :=
  ⟨joinSep (ts.map String.data)⟩

theorem digitVal_decDigitChar {d : Nat} (hd : d < 10) :
    digitVal (decDigitChar d) = some d := by
  interval_cases d <;> rfl

theorem decValue_append (xs : List Nat) (d : Nat) :
    decValue (xs ++ [d]) = decValue xs + d * 10 ^ xs.length := by
  induction xs with
  | nil => simp [decValue]
  | cons x xs ih => simp [decValue, ih]; ring

theorem foldl_eq_decValue (l : List Nat) (acc : Nat) :
    l.foldl (fun a d => a * 10 + d) acc = acc * 10 ^ l.length + decValue l.reverse := by
  induction l generalizing acc with
  | nil => simp [decValue]
  | cons d t ih =>
    simp only [List.foldl_cons, ih, List.reverse_cons, decValue_append,
      List.length_cons, List.length_reverse]
    ring

theorem natOfDigits_map_decDigitChar (l : List Nat) (acc : Nat)
    (h : ∀ d ∈ l, d < 10) :
    natOfDigits acc (l.map decDigitChar)
      = some (l.foldl (fun a d => a * 10 + d) acc) := by
  induction l generalizing acc with
  | nil => rfl
  | cons d t ih =>
    simp only [List.map_cons, natOfDigits,
      digitVal_decDigitChar (h d (List.mem_cons_self ..)), List.foldl_cons]
    exact ih _ (fun x hx => h x (List.mem_cons_of_mem _ hx))

theorem natOfDigits_natStr (n : Nat) : natOfDigits 0 (natStr n).data = some n := by
  by_cases h0 : n = 0
  · subst h0; rfl
  · have hdata : (natStr n).data = (decDigitsAux n n).reverse.map decDigitChar := by
      simp only [natStr, h0, if_false]
      exact (List.map_reverse decDigitChar (decDigitsAux n n)).symm
    rw [hdata, natOfDigits_map_decDigitChar _ _
      (fun d hd => decDigitsAux_lt n n d (List.mem_reverse.mp hd))]
    rw [foldl_eq_decValue]
    simp [decValue_decDigitsAux (le_refl n)]

theorem natStr_data_all_digits (n : Nat) :
    ∀ c ∈ (natStr n).data, (digitVal c).isSome := by
  by_cases h0 : n = 0
  · subst h0; intro c hc; simp only [natStr] at hc
    simp at hc; subst hc; rfl
  · intro c hc
    simp only [natStr, h0, if_false] at hc
    rw [List.mem_reverse, List.mem_map] at hc
    obtain ⟨d, hd, rfl⟩ := hc
    rw [digitVal_decDigitChar (decDigitsAux_lt n n d hd)]
    rfl

theorem natStr_data_ne_nil (n : Nat) : (natStr n).data ≠ [] := by
  by_cases h0 : n = 0
  · subst h0; simp [natStr]
  · simp only [natStr, h0, if_false]
    match e : decDigitsAux n n with
    | [] =>
      exfalso
      have := decValue_decDigitsAux (le_refl n)
      rw [e] at this
      simp [decValue] at this
      omega
    | d :: ds => simp

theorem pyInt_intStr (v : Int) : pyInt (intStr v) = some v := by
  by_cases hv : v < 0
  · have hne := natStr_data_ne_nil v.natAbs
    simp only [intStr, hv, if_true, pyInt, String.data_append]
    show pyIntOfChars ('-' :: (natStr v.natAbs).data) = some v
    simp only [pyIntOfChars, if_pos rfl]
    rw [if_neg hne, natOfDigits_natStr]
    have habs : ((v.natAbs : Nat) : Int) = -v :=
      Int.ofNat_natAbs_of_nonpos (le_of_lt hv)
    simp [habs]
  · simp only [intStr, hv, if_false, pyInt]
    match e : (natStr v.natAbs).data with
    | [] => exact absurd e (natStr_data_ne_nil v.natAbs)
    | c :: rest =>
      have hdig : (digitVal c).isSome := by
        refine natStr_data_all_digits v.natAbs c ?_
        rw [e]; exact List.mem_cons_self ..
      have hcne : ¬(c = '-') := by
        intro hc; subst hc
        simp [digitVal] at hdig
      simp only [pyIntOfChars, if_neg hcne]
      rw [← e, natOfDigits_natStr]
      simp
      omega

theorem intStr_data_ne_nil (v : Int) : (intStr v).data ≠ [] := by
  by_cases hv : v < 0
  · simp [intStr, hv, String.data_append]
  · simp only [intStr, hv, if_false]
    exact natStr_data_ne_nil v.natAbs

theorem natStr_data_no_space (n : Nat) : ∀ c ∈ (natStr n).data, c ≠ ' ' := by
  intro c hc he
  have := natStr_data_all_digits n c hc
  subst he
  simp [digitVal] at this

theorem intStr_data_no_space (v : Int) : ∀ c ∈ (intStr v).data, c ≠ ' ' := by
  by_cases hv : v < 0
  · simp only [intStr, hv, if_true, String.data_append]
    intro c hc
    rcases List.mem_append.mp hc with h | h
    · simp at h; subst h; decide
    · exact natStr_data_no_space v.natAbs c h
  · simp only [intStr, hv, if_false]
    exact natStr_data_no_space v.natAbs

theorem bne_space_iff (c : Char) : (c != ' ') = true ↔ c ≠ ' ' := by
  simp [bne_iff_ne]

theorem takeWhile_no_space_append (cs r : List Char) (h : ∀ c ∈ cs, c ≠ ' ') :
    (cs ++ ' ' :: r).takeWhile (· != ' ') = cs := by
  induction cs with
  | nil => simp [List.takeWhile]
  | cons c t ih =>
    have hc : (c != ' ') = true := (bne_space_iff c).mpr (h c (List.mem_cons_self ..))
    simp only [List.cons_append, List.takeWhile_cons, hc, if_true]
    rw [ih (fun x hx => h x (List.mem_cons_of_mem _ hx))]

theorem dropWhile_no_space_append (cs r : List Char) (h : ∀ c ∈ cs, c ≠ ' ') :
    (cs ++ ' ' :: r).dropWhile (· != ' ') = ' ' :: r := by
  induction cs with
  | nil => simp [List.dropWhile]
  | cons c t ih =>
    have hc : (c != ' ') = true := (bne_space_iff c).mpr (h c (List.mem_cons_self ..))
    simp only [List.cons_append, List.dropWhile_cons, hc, if_true]
    exact ih (fun x hx => h x (List.mem_cons_of_mem _ hx))

theorem splitWSAux_nil (fuel : Nat) : splitWSAux fuel [] = [] := by
  cases fuel <;> rfl

theorem splitWSAux_space (f : Nat) (l : List Char) :
    splitWSAux (f + 1) (' ' :: l) = splitWSAux f l := by
  simp [splitWSAux]

theorem splitWSAux_single (c : Char) (cs : List Char) (f : Nat)
    (hc : ¬(c = ' ')) (hcs : ∀ x ∈ cs, x ≠ ' ') :
    splitWSAux (f + 2) (c :: (cs ++ ' ' :: [])) = [c :: cs] := by
  have h1 : splitWSAux (f + 2) (c :: (cs ++ ' ' :: []))
      = (c :: (cs ++ ' ' :: []).takeWhile (· != ' '))
        :: splitWSAux (f + 1) ((cs ++ ' ' :: []).dropWhile (· != ' ')) := by
    show splitWSAux (f + 1 + 1) _ = _
    simp only [splitWSAux]
    rw [if_neg hc]
  rw [h1, takeWhile_no_space_append cs [] hcs, dropWhile_no_space_append cs [] hcs,
    splitWSAux_space, splitWSAux_nil]

theorem splitWSAux_joinSep :
    ∀ (tokens : List (List Char)) (fuel : Nat),
    (∀ t ∈ tokens, t ≠ [] ∧ ∀ c ∈ t, c ≠ ' ') →
    (joinSep tokens).length ≤ fuel →
    splitWSAux fuel (joinSep tokens) = tokens
  | [], fuel, _, _ => by simp [joinSep, splitWSAux_nil]
  | [t], fuel, h, hfuel => by
    obtain ⟨hne, hsp⟩ := h t (List.mem_cons_self ..)
    match t, hne with
    | c :: cs, _ =>
      have hlen : cs.length + 1 ≤ fuel := by
        simpa [joinSep] using hfuel
      match fuel, hlen with
      | f + 1, _ =>
        have hc : ¬(c = ' ') := hsp c (List.mem_cons_self ..)
        simp only [joinSep, splitWSAux, hc, if_false]
        rw [List.takeWhile_eq_self_iff.mpr, List.dropWhile_eq_nil_iff.mpr,
          splitWSAux_nil]
        · intro x hx
          exact (bne_space_iff x).mpr (hsp x (List.mem_cons_of_mem _ hx))
        · intro x hx
          exact (bne_space_iff x).mpr (hsp x (List.mem_cons_of_mem _ hx))
  | t :: t2 :: ts, fuel, h, hfuel => by
    obtain ⟨hne, hsp⟩ := h t (List.mem_cons_self ..)
    match t, hne with
    | c :: cs, _ =>
      have hjoin : joinSep ((c :: cs) :: t2 :: ts)
          = c :: (cs ++ ' ' :: joinSep (t2 :: ts)) := by
        simp [joinSep]
      have hlen : cs.length + 1 + (joinSep (t2 :: ts)).length + 1 ≤ fuel := by
        rw [hjoin] at hfuel
        simpa [Nat.add_assoc, Nat.add_comm, Nat.add_left_comm] using hfuel
      match fuel, hlen with
      | f + 1, _ =>
        have hc : ¬(c = ' ') := hsp c (List.mem_cons_self ..)
        have hcs : ∀ x ∈ cs, x ≠ ' ' := fun x hx => hsp x (List.mem_cons_of_mem _ hx)
        rw [hjoin]
        simp only [splitWSAux, hc, if_false]
        rw [takeWhile_no_space_append cs _ hcs, dropWhile_no_space_append cs _ hcs]
        have hf : (joinSep (t2 :: ts)).length + 1 ≤ f := by omega
        match f, hf with
        | f2 + 1, _ =>
          rw [splitWSAux_space, splitWSAux_joinSep (t2 :: ts) f2
            (fun x hx => h x (List.mem_cons_of_mem _ hx)) (by omega)]

theorem map_mk_data (ts : List String) :
    (ts.map String.data).map (fun l => (⟨l⟩ : String)) = ts := by
  rw [List.map_map]
  rw [show ((fun l => (⟨l⟩ : String)) ∘ String.data) = id by funext s; rfl]
  exact List.map_id ts

theorem pySplit_spaceJoined (head : String) (tokens : List String)
    (hh : head.data ≠ [] ∧ ∀ c ∈ head.data, c ≠ ' ')
    (h : ∀ t ∈ tokens, t.data ≠ [] ∧ ∀ c ∈ t.data, c ≠ ' ') :
    pySplit (head ++ " " ++ joinSpace tokens) = head :: tokens := by
  obtain ⟨hne, hsp⟩ := hh
  have hall : ∀ t ∈ tokens.map String.data, t ≠ [] ∧ ∀ c ∈ t, c ≠ ' ' := by
    intro t ht
    obtain ⟨s, hs, rfl⟩ := List.mem_map.mp ht
    exact h s hs
  match tokens, hall with
  | [], _ =>
    have hdata : (head ++ " " ++ joinSpace []).data = head.data ++ [' '] := by
      simp [String.data_append, joinSpace, joinSep]
    unfold pySplit
    rw [hdata]
    match e : head.data, hne, hsp with
    | c :: cs, _, hsp =>
      have hc : ¬(c = ' ') := hsp c (List.mem_cons_self ..)
      have hcs : ∀ x ∈ cs, x ≠ ' ' := fun x hx => hsp x (List.mem_cons_of_mem _ hx)
      have hshape : (c :: cs) ++ [' '] = c :: (cs ++ ' ' :: []) := rfl
      rw [hshape]
      have hlen : (c :: (cs ++ ' ' :: [])).length = cs.length + 2 := by simp
      rw [hlen, splitWSAux_single c cs cs.length hc hcs]
      show [(⟨c :: cs⟩ : String)] = [head]
      rw [← e]
  | t :: ts, hall =>
    have hdata : (head ++ " " ++ joinSpace (t :: ts)).data
        = joinSep (head.data :: (t :: ts).map String.data) := by
      simp [String.data_append, joinSpace, joinSep]
    unfold pySplit
    rw [hdata]
    rw [splitWSAux_joinSep (head.data :: (t :: ts).map String.data) _
      (by
        intro x hx
        rcases List.mem_cons.mp hx with rfl | hx2
        · exact ⟨hne, hsp⟩
        · exact hall x hx2) (le_refl _)]
    show (⟨head.data⟩ : String) :: ((t :: ts).map String.data).map (fun l => (⟨l⟩ : String))
        = head :: t :: ts
    rw [map_mk_data]

/-! ### The hull merger (`merge_obj_files` in `mouse_position.py`, lines 119-144)

A segment file is a list of lines.  The Python loop concatenates all OBJ
files, emits an `o <prefix><i>` name line per file, copies vertex lines,
rewrites face lines by adding the running vertex offset, and aborts on any
other line (`report ERROR` + `assert False`, modelled as `formatError`); a
face token that `int()` cannot parse raises `ValueError` (`valueError`). -/

inductive MergeError where
  | formatError (line : String)
  | valueError (token : String)
deriving DecidableEq, Repr

/-- `[int(_) for _ in tokens]`: parse every token or fail on the first bad one. -/
def parseTokens : List String → Except MergeError (List Int)
  | [] => .ok []
  | t :: ts =>
    match pyInt t with
    | some v =>
      match parseTokens ts with
      | .ok vs => .ok (v :: vs)
      | .error e => .error e
    | none => .error (.valueError t)

/-- `el = line.split(); vert_idx = [int(_) for _ in el[1:]]`. -/
def parseFaceLine (line : String) : Except MergeError (List Int) :=
  parseTokens ((pySplit line).drop 1)

/-- The body of the inner loop of `merge_obj_files` over one segment file:
copies vertex lines (counting them), rewrites face lines by `vertOfs`, and
fails on anything else.  Returns the vertex count and the emitted lines. -/
def mergeSegLines (vertOfs : Nat) : List String → Except MergeError (Nat × List String)
  | [] => .ok (0, [])
  | line :: rest =>
    if strStartsWith line "v " then
      match mergeSegLines vertOfs rest with
      | .ok (cnt, out) => .ok (cnt + 1, line :: out)
      | .error e => .error e
    else if strStartsWith line "f " then
      match parseFaceLine line with
      | .ok idxs =>
        match mergeSegLines vertOfs rest with
        | .ok (cnt, out) =>
          .ok (cnt, ("f " ++ joinSpace ((idxs.map (fun v => v + (vertOfs : Int))).map intStr)) :: out)
        | .error e => .error e
      | .error e => .error e
    else .error (.formatError line)

/-- The outer loop of `merge_obj_files`: segment index `i` and running
vertex offset `vertOfs` are the loop state. -/
def mergeFilesAux (pre : String) : Nat → Nat → List (List String) → Except MergeError (List String)
  | _, _, [] => .ok []
  | i, vertOfs, file :: rest =>
    match mergeSegLines vertOfs file with
    | .ok (cnt, out) =>
      match mergeFilesAux pre (i + 1) (vertOfs + cnt) rest with
      | .ok restOut => .ok ((("o " ++ pre ++ natStr i) :: out) ++ restOut)
      | .error e => .error e
    | .error e => .error e

/-- `merge_obj_files(prefix, out_files)` from `mouse_position.py`: merged
document as a list of lines (the Python code writes them to
`/tmp/foo/merged.obj`). -/
def merge_obj_files (pre : String) (out_files : List (List String)) :
    Except MergeError (List String) :=
  mergeFilesAux pre 0 0 out_files

/-- Number of vertex lines of a segment file (`vert_cnt` of the Python loop). -/
def countVLines (file : List String) : Nat :=
  (file.filter (fun l => strStartsWith l "v ")).length

/-- Total vertex count over all segment files. -/
def totalVerts (files : List (List String)) : Nat :=
  (files.map countVLines).sum

/-- The face indices carried by one line (empty for non-face lines,
best-effort for unparsable face lines; the merger rejects those anyway). -/
def lineFaceIndices (line : String) : List Int :=
  if strStartsWith line "f " then
    match parseFaceLine line with
    | .ok xs => xs
    | .error _ => []
  else []

/-- All face indices of a document, in document order. -/
def docFaceIndices (lines : List String) : List Int :=
  lines.flatMap lineFaceIndices

/-- The object-name lines of a document, in document order. -/
def objNameLines (lines : List String) : List String :=
  lines.filter (fun l => strStartsWith l "o ")

/-- Spec-shaped description of the merged face indices (from the spec's
words): every face index of segment `i` rewritten as
`original_index + offset_before_segment_i` with the running vertex-count
offset, in input order. -/
def shiftedFaceIndices : Nat → List (List String) → List Int
  | _, [] => []
  | ofs, file :: rest =>
    (docFaceIndices file).map (fun x => x + (ofs : Int))
      ++ shiftedFaceIndices (ofs + countVLines file) rest

/-! ### Prefix-test helper lemmas -/

theorem strStartsWith_head {s p : String} {c : Char} {cs : List Char}
    (hp : p.data = c :: cs) (h : strStartsWith s p = true) :
    ∃ t, s.data = c :: t := by
  unfold strStartsWith at h
  rw [List.isPrefixOf_iff_prefix] at h
  obtain ⟨t, ht⟩ := h
  rw [hp] at ht
  exact ⟨cs ++ t, by rw [← ht]; simp⟩

theorem strStartsWith_concat (pre t : String) :
    strStartsWith (pre ++ t) pre = true := by
  unfold strStartsWith
  rw [List.isPrefixOf_iff_prefix, String.data_append]
  exact List.prefix_append _ _

theorem strStartsWith_false_head {s p : String} {a b : Char} {ta tb : List Char}
    (hs : s.data = a :: ta) (hp : p.data = b :: tb) (hne : a ≠ b) :
    strStartsWith s p = false := by
  cases hsw : strStartsWith s p
  · rfl
  · exfalso
    obtain ⟨t, ht⟩ := strStartsWith_head hp hsw
    rw [hs] at ht
    exact hne (by injection ht)

theorem vLine_not_o {l : String} (h : strStartsWith l "v " = true) :
    strStartsWith l "o " = false := by
  obtain ⟨t, ht⟩ := strStartsWith_head (show ("v " : String).data = 'v' :: [' '] from rfl) h
  exact strStartsWith_false_head ht rfl (by decide)

theorem vLine_not_f {l : String} (h : strStartsWith l "v " = true) :
    strStartsWith l "f " = false := by
  obtain ⟨t, ht⟩ := strStartsWith_head (show ("v " : String).data = 'v' :: [' '] from rfl) h
  exact strStartsWith_false_head ht rfl (by decide)

theorem fConcat_data (x : String) : ("f " ++ x).data = 'f' :: ' ' :: x.data := rfl

theorem oConcat_data (x : String) : ("o " ++ x).data = 'o' :: ' ' :: x.data := rfl

theorem fConcat_not_v (x : String) : strStartsWith ("f " ++ x) "v " = false :=
  strStartsWith_false_head (fConcat_data x) rfl (by decide)

theorem fConcat_not_o (x : String) : strStartsWith ("f " ++ x) "o " = false :=
  strStartsWith_false_head (fConcat_data x) rfl (by decide)

theorem oConcat_not_v (x : String) : strStartsWith ("o " ++ x) "v " = false :=
  strStartsWith_false_head (oConcat_data x) rfl (by decide)

theorem oConcat_not_f (x : String) : strStartsWith ("o " ++ x) "f " = false :=
  strStartsWith_false_head (oConcat_data x) rfl (by decide)

/-! ### Round trip through the emitted face line -/

theorem parseTokens_intStr (vs : List Int) :
    parseTokens (vs.map intStr) = .ok vs := by
  induction vs with
  | nil => rfl
  | cons v t ih => simp [parseTokens, pyInt_intStr, ih]

theorem lineFaceIndices_merged (vs : List Int) :
    lineFaceIndices ("f " ++ joinSpace (vs.map intStr)) = vs := by
  have hcond : ∀ t ∈ vs.map intStr, t.data ≠ [] ∧ ∀ c ∈ t.data, c ≠ ' ' := by
    intro t ht
    obtain ⟨v, _, rfl⟩ := List.mem_map.mp ht
    exact ⟨intStr_data_ne_nil v, intStr_data_no_space v⟩
  have hsplit : pySplit ("f " ++ joinSpace (vs.map intStr)) = "f" :: vs.map intStr :=
    pySplit_spaceJoined "f" (vs.map intStr) ⟨by decide, by decide⟩ hcond
  unfold lineFaceIndices
  rw [strStartsWith_concat]
  unfold parseFaceLine
  rw [hsplit]
  simp [parseTokens_intStr]

/-! ### Correctness of the inner merge loop -/

theorem mergeSegLines_ok (vertOfs : Nat) :
    ∀ (file : List String) (cnt : Nat) (out : List String),
    mergeSegLines vertOfs file = .ok (cnt, out) →
    cnt = countVLines file ∧
    countVLines out = countVLines file ∧
    objNameLines out = [] ∧
    docFaceIndices out = (docFaceIndices file).map (fun x => x + (vertOfs : Int)) := by
  intro file
  induction file with
  | nil =>
    intro cnt out h
    simp only [mergeSegLines] at h
    obtain ⟨rfl, rfl⟩ : 0 = cnt ∧ [] = out := by
      constructor <;> [exact congrArg Prod.fst (Except.ok.inj h); exact congrArg Prod.snd (Except.ok.inj h)]
    simp [countVLines, objNameLines, docFaceIndices]
  | cons line rest ih =>
    intro cnt out h
    simp only [mergeSegLines] at h
    by_cases hv : strStartsWith line "v " = true
    · rw [if_pos hv] at h
      cases hrec : mergeSegLines vertOfs rest with
      | error e => rw [hrec] at h; exact absurd h (by simp)
      | ok p =>
        obtain ⟨c2, o2⟩ := p
        rw [hrec] at h
        obtain ⟨h1, h2⟩ : c2 + 1 = cnt ∧ line :: o2 = out := by
          have := Except.ok.inj h
          exact ⟨congrArg Prod.fst this, congrArg Prod.snd this⟩
        subst h1; subst h2
        obtain ⟨ha, hb, hc, hd⟩ := ih c2 o2 hrec
        refine ⟨?_, ?_, ?_, ?_⟩
        · simp [countVLines, List.filter_cons, hv, ha]
        · simp [countVLines, List.filter_cons, hv]
          simpa [countVLines] using hb
        · simp [objNameLines, List.filter_cons, vLine_not_o hv]
          simpa [objNameLines] using hc
        · simp only [docFaceIndices, List.flatMap_cons]
          have hfl : lineFaceIndices line = [] := by
            simp [lineFaceIndices, vLine_not_f hv]
          rw [hfl]
          simpa [docFaceIndices] using hd
    · rw [if_neg hv] at h
      by_cases hf : strStartsWith line "f " = true
      · rw [if_pos hf] at h
        cases hparse : parseFaceLine line with
        | error e => rw [hparse] at h; exact absurd h (by simp)
        | ok idxs =>
          rw [hparse] at h
          cases hrec : mergeSegLines vertOfs rest with
          | error e => rw [hrec] at h; exact absurd h (by simp)
          | ok p =>
            obtain ⟨c2, o2⟩ := p
            rw [hrec] at h
            obtain ⟨h1, h2⟩ : c2 = cnt ∧
                ("f " ++ joinSpace ((idxs.map (fun v => v + (vertOfs : Int))).map intStr)) :: o2 = out := by
              have := Except.ok.inj h
              exact ⟨congrArg Prod.fst this, congrArg Prod.snd this⟩
            subst h1; subst h2
            obtain ⟨ha, hb, hc, hd⟩ := ih c2 o2 hrec
            have hvline : strStartsWith line "v " = false := by
              cases e : strStartsWith line "v " with
              | false => rfl
              | true => exact absurd e hv
            refine ⟨?_, ?_, ?_, ?_⟩
            · simp [countVLines, List.filter_cons, hvline, ha]
            · simp [countVLines, List.filter_cons, hvline, fConcat_not_v]
              simpa [countVLines] using hb
            · simp [objNameLines, List.filter_cons, fConcat_not_o]
              simpa [objNameLines] using hc
            · simp only [docFaceIndices, List.flatMap_cons]
              rw [lineFaceIndices_merged]
              have hfl : lineFaceIndices line = idxs := by
                simp [lineFaceIndices, hf, hparse]
              rw [hfl]
              simpa [docFaceIndices] using hd
      · rw [if_neg hf] at h
        exact absurd h (by simp)

/-! ### Correctness of the outer merge loop -/

theorem oLine_faceIndices (x : String) : lineFaceIndices ("o " ++ x) = [] := by
  simp [lineFaceIndices, oConcat_not_f]

theorem mergeFilesAux_ok (pre : String) :
    ∀ (files : List (List String)) (i ofs : Nat) (out : List String),
    mergeFilesAux pre i ofs files = .ok out →
    objNameLines out = (List.range files.length).map (fun k => "o " ++ (pre ++ natStr (i + k))) ∧
    docFaceIndices out = shiftedFaceIndices ofs files ∧
    countVLines out = totalVerts files := by
  intro files
  induction files with
  | nil =>
    intro i ofs out h
    simp only [mergeFilesAux] at h
    have : ([] : List String) = out := Except.ok.inj h
    subst this
    simp [objNameLines, docFaceIndices, countVLines, totalVerts, shiftedFaceIndices]
  | cons file rest ih =>
    intro i ofs out h
    simp only [mergeFilesAux] at h
    cases hseg : mergeSegLines ofs file with
    | error e => rw [hseg] at h; exact absurd h (by simp)
    | ok p =>
      obtain ⟨cnt, segOut⟩ := p
      rw [hseg] at h
      have h2 : (match mergeFilesAux pre (i + 1) (ofs + cnt) rest with
          | .ok restOut => Except.ok ((("o " ++ pre ++ natStr i) :: segOut) ++ restOut)
          | .error e => Except.error e) = Except.ok out := h
      cases hrest : mergeFilesAux pre (i + 1) (ofs + cnt) rest with
      | error e => rw [hrest] at h2; exact absurd h2 (by simp)
      | ok restOut =>
        rw [hrest] at h2
        have hout : (("o " ++ pre ++ natStr i) :: segOut) ++ restOut = out :=
          Except.ok.inj h2
        subst hout
        obtain ⟨hcnt, hvcount, hnames, hfaces⟩ := mergeSegLines_ok ofs file cnt segOut hseg
        obtain ⟨ihn, ihf, ihv⟩ := ih (i + 1) (ofs + cnt) restOut hrest
        have hoassoc : ("o " ++ pre ++ natStr i) = "o " ++ (pre ++ natStr i) := by
          rw [String.ext_iff]
          simp [String.data_append, List.append_assoc]
        have hmapeq : (fun k => "o " ++ (pre ++ natStr (i + 1 + k)))
            = ((fun k => "o " ++ (pre ++ natStr (i + k))) ∘ Nat.succ) := by
          funext k
          simp only [Function.comp_apply]
          have harith : i + 1 + k = i + (k + 1) := by omega
          rw [harith]
        refine ⟨?_, ?_, ?_⟩
        · simp only [objNameLines, List.filter_append, List.filter_cons, hoassoc,
            strStartsWith_concat]
          simp only [objNameLines] at hnames ihn
          rw [hnames, ihn]
          simp only [List.nil_append, List.length_cons, List.range_succ_eq_map,
            List.map_cons, List.map_map, if_true, List.singleton_append, Nat.add_zero]
          rw [hmapeq]
        · simp only [docFaceIndices, List.flatMap_append, List.flatMap_cons, hoassoc,
            oLine_faceIndices]
          simp only [docFaceIndices] at hfaces ihf
          rw [hfaces, ihf]
          simp only [List.nil_append, shiftedFaceIndices, docFaceIndices]
          rw [hcnt]
        · simp only [countVLines] at hvcount ihv ⊢
          simp only [hoassoc, List.filter_append, List.filter_cons, oConcat_not_v,
            Bool.false_eq_true, if_false, List.length_append]
          rw [hvcount, ihv]
          simp [totalVerts, countVLines]

instance {e a : Type} [DecidableEq e] [DecidableEq a] : DecidableEq (Except e a) := fun x y =>
  match x, y with
  | .ok v, .ok w =>
    if h : v = w then .isTrue (by rw [h]) else .isFalse (by intro he; injection he; contradiction)
  | .error v, .error w =>
    if h : v = w then .isTrue (by rw [h]) else .isFalse (by intro he; injection he; contradiction)
  | .ok _, .error _ => .isFalse (by intro he; injection he)
  | .error _, .ok _ => .isFalse (by intro he; injection he)

/-! ### Face-index bounds of the merged document -/

theorem shiftedFaceIndices_bound :
    ∀ (files : List (List String)) (ofs : Nat),
    (∀ f ∈ files, ∀ x ∈ docFaceIndices f, 1 ≤ x ∧ x ≤ (countVLines f : Int)) →
    ∀ x ∈ shiftedFaceIndices ofs files,
      1 + (ofs : Int) ≤ x ∧ x ≤ (ofs : Int) + (totalVerts files : Int) := by
  intro files
  induction files with
  | nil => intro ofs _ x hx; simp [shiftedFaceIndices] at hx
  | cons file rest ih =>
    intro ofs hvalid x hx
    have htot : totalVerts (file :: rest) = countVLines file + totalVerts rest := by
      simp [totalVerts]
    simp only [shiftedFaceIndices, List.mem_append] at hx
    rcases hx with hx | hx
    · obtain ⟨y, hy, rfl⟩ := List.mem_map.mp hx
      obtain ⟨h1, h2⟩ := hvalid file (List.mem_cons_self ..) y hy
      rw [htot]
      push_cast
      constructor <;> omega
    · have := ih (ofs + countVLines file)
        (fun f hf => hvalid f (List.mem_cons_of_mem _ hf)) x hx
      rw [htot]
      push_cast at this ⊢
      constructor <;> omega

/-- **C1, counterexample.**  The claim asserts that for *every* ordered
sequence of input segment files the merged document's face indices lie in
`[1, sum of vertex counts]`.  A segment whose face references a vertex index
beyond its own vertex count refutes this: merging the single file
`["v 0 0 0", "f 5"]` succeeds and yields face index `5`, but the total
vertex count is `1`. -/
theorem C1_counterexample :
    merge_obj_files "h" [["v 0 0 0", "f 5"]] = .ok ["o h0", "v 0 0 0", "f 5"]
    ∧ docFaceIndices ["o h0", "v 0 0 0", "f 5"] = [5]
    ∧ totalVerts [["v 0 0 0", "f 5"]] = 1
    ∧ ¬((5 : Int) ≤ 1) := by
  refine ⟨by decide, by decide, by decide, by decide⟩

/-- **C1** (amended): if `merge_obj_files` succeeds and every input segment's
face indices are within that segment's own vertex count, then the merged
document names segment `i` as `<prefix><i>` (in input order), rewrites every
face index of segment `i` by exactly the vertex-count offset of the segments
before it, and every merged face index lies in `[1, total vertex count]`. -/
theorem C1_amended (pre : String) (files : List (List String)) (out : List String)
    (hok : merge_obj_files pre files = .ok out)
    (hvalid : ∀ f ∈ files, ∀ x ∈ docFaceIndices f, 1 ≤ x ∧ x ≤ (countVLines f : Int)) :
    objNameLines out = (List.range files.length).map (fun i => "o " ++ (pre ++ natStr i))
    ∧ docFaceIndices out = shiftedFaceIndices 0 files
    ∧ ∀ x ∈ docFaceIndices out, 1 ≤ x ∧ x ≤ (totalVerts files : Int) := by
  obtain ⟨hn, hf, _⟩ := mergeFilesAux_ok pre files 0 0 out hok
  refine ⟨by simpa using hn, hf, ?_⟩
  intro x hx
  rw [hf] at hx
  have hb := shiftedFaceIndices_bound files 0 hvalid x hx
  push_cast at hb
  exact ⟨by omega, by omega⟩

/-- Witness for `C1_amended` at a concrete two-segment input. -/
theorem C1_amended_witness :
    objNameLines ["o h0", "v 0 0 0", "f 1", "o h1", "v 1 1 1", "v 0 0 1", "f 2 3"]
      = (List.range 2).map (fun i => "o " ++ ("h" ++ natStr i))
    ∧ docFaceIndices ["o h0", "v 0 0 0", "f 1", "o h1", "v 1 1 1", "v 0 0 1", "f 2 3"]
      = shiftedFaceIndices 0 [["v 0 0 0", "f 1"], ["v 1 1 1", "v 0 0 1", "f 1 2"]]
    ∧ ∀ x ∈ docFaceIndices ["o h0", "v 0 0 0", "f 1", "o h1", "v 1 1 1", "v 0 0 1", "f 2 3"],
        1 ≤ x ∧ x ≤ (totalVerts [["v 0 0 0", "f 1"], ["v 1 1 1", "v 0 0 1", "f 1 2"]] : Int) :=
  C1_amended "h" [["v 0 0 0", "f 1"], ["v 1 1 1", "v 0 0 1", "f 1 2"]]
    ["o h0", "v 0 0 0", "f 1", "o h1", "v 1 1 1", "v 0 0 1", "f 2 3"]
    (by decide) (by decide)

/-! ### Which lines the merger accepts and rejects -/

theorem mergeSegLines_ok_of_recognized :
    ∀ (file : List String) (ofs : Nat),
    (∀ line ∈ file, strStartsWith line "v " = true ∨
      (strStartsWith line "f " = true ∧ (parseFaceLine line).isOk = true)) →
    ∃ cnt out, mergeSegLines ofs file = .ok (cnt, out) := by
  intro file
  induction file with
  | nil => intro ofs _; exact ⟨0, [], rfl⟩
  | cons line rest ih =>
    intro ofs hrec
    obtain ⟨cnt, out, hout⟩ := ih ofs (fun l hl => hrec l (List.mem_cons_of_mem _ hl))
    by_cases hv : strStartsWith line "v " = true
    · refine ⟨cnt + 1, line :: out, ?_⟩
      simp only [mergeSegLines, if_pos hv, hout]
    · rcases hrec line (List.mem_cons_self ..) with h | ⟨hf, hparse⟩
      · exact absurd h hv
      · cases hp : parseFaceLine line with
        | error e => rw [hp] at hparse; simp [Except.isOk, Except.toBool] at hparse
        | ok idxs =>
          refine ⟨cnt,
            ("f " ++ joinSpace ((idxs.map (fun v => v + (ofs : Int))).map intStr)) :: out, ?_⟩
          simp only [mergeSegLines, if_neg hv, if_pos hf, hp, hout]

theorem mergeSegLines_error_of_bad :
    ∀ (file : List String) (ofs : Nat),
    (∃ line ∈ file, strStartsWith line "v " = false ∧ strStartsWith line "f " = false) →
    (∀ line ∈ file, strStartsWith line "f " = true → (parseFaceLine line).isOk = true) →
    ∃ bad, strStartsWith bad "v " = false ∧ strStartsWith bad "f " = false ∧
      mergeSegLines ofs file = .error (.formatError bad) := by
  intro file
  induction file with
  | nil => intro ofs hbad _; simp at hbad
  | cons line rest ih =>
    intro ofs hbad hparse
    by_cases hv : strStartsWith line "v " = true
    · have hbadrest : ∃ l ∈ rest, strStartsWith l "v " = false ∧ strStartsWith l "f " = false := by
        obtain ⟨l, hl, hlv, hlf⟩ := hbad
        rcases List.mem_cons.mp hl with rfl | hl2
        · rw [hv] at hlv; exact absurd hlv (by simp)
        · exact ⟨l, hl2, hlv, hlf⟩
      obtain ⟨bad, hb1, hb2, hb3⟩ := ih ofs hbadrest
        (fun l hl => hparse l (List.mem_cons_of_mem _ hl))
      refine ⟨bad, hb1, hb2, ?_⟩
      simp only [mergeSegLines, if_pos hv, hb3]
    · by_cases hf : strStartsWith line "f " = true
      · have hbadrest : ∃ l ∈ rest, strStartsWith l "v " = false ∧ strStartsWith l "f " = false := by
          obtain ⟨l, hl, hlv, hlf⟩ := hbad
          rcases List.mem_cons.mp hl with rfl | hl2
          · rw [hf] at hlf; exact absurd hlf (by simp)
          · exact ⟨l, hl2, hlv, hlf⟩
        obtain ⟨bad, hb1, hb2, hb3⟩ := ih ofs hbadrest
          (fun l hl => hparse l (List.mem_cons_of_mem _ hl))
        have hpl := hparse line (List.mem_cons_self ..) hf
        cases hp : parseFaceLine line with
        | error e => rw [hp] at hpl; simp [Except.isOk, Except.toBool] at hpl
        | ok idxs =>
          refine ⟨bad, hb1, hb2, ?_⟩
          simp only [mergeSegLines, if_neg hv, if_pos hf, hp, hb3]
      · refine ⟨line, ?_, ?_, ?_⟩
        · cases e : strStartsWith line "v " with
          | false => rfl
          | true => exact absurd e hv
        · cases e : strStartsWith line "f " with
          | false => rfl
          | true => exact absurd e hf
        · simp only [mergeSegLines, if_neg hv, if_neg hf]

theorem mergeFilesAux_ok_of_recognized (pre : String) :
    ∀ (files : List (List String)) (i ofs : Nat),
    (∀ file ∈ files, ∀ line ∈ file, strStartsWith line "v " = true ∨
      (strStartsWith line "f " = true ∧ (parseFaceLine line).isOk = true)) →
    ∃ out, mergeFilesAux pre i ofs files = .ok out := by
  intro files
  induction files with
  | nil => intro i ofs _; exact ⟨[], rfl⟩
  | cons file rest ih =>
    intro i ofs hrec
    obtain ⟨cnt, segOut, hseg⟩ :=
      mergeSegLines_ok_of_recognized file ofs (hrec file (List.mem_cons_self ..))
    obtain ⟨restOut, hrest⟩ := ih (i + 1) (ofs + cnt)
      (fun f hf => hrec f (List.mem_cons_of_mem _ hf))
    refine ⟨(("o " ++ pre ++ natStr i) :: segOut) ++ restOut, ?_⟩
    simp only [mergeFilesAux, hseg, hrest]

theorem mergeFilesAux_error_of_bad (pre : String) :
    ∀ (files : List (List String)) (i ofs : Nat),
    (∃ file ∈ files, ∃ line ∈ file,
      strStartsWith line "v " = false ∧ strStartsWith line "f " = false) →
    (∀ file ∈ files, ∀ line ∈ file, strStartsWith line "f " = true →
      (parseFaceLine line).isOk = true) →
    ∃ bad, strStartsWith bad "v " = false ∧ strStartsWith bad "f " = false ∧
      mergeFilesAux pre i ofs files = .error (.formatError bad) := by
  intro files
  induction files with
  | nil => intro i ofs hbad _; simp at hbad
  | cons file rest ih =>
    intro i ofs hbad hparse
    by_cases hbadhead : ∃ line ∈ file, strStartsWith line "v " = false ∧ strStartsWith line "f " = false
    · obtain ⟨bad, hb1, hb2, hb3⟩ := mergeSegLines_error_of_bad file ofs hbadhead
        (hparse file (List.mem_cons_self ..))
      refine ⟨bad, hb1, hb2, ?_⟩
      simp only [mergeFilesAux, hb3]
    · have hrecog : ∀ line ∈ file, strStartsWith line "v " = true ∨
          (strStartsWith line "f " = true ∧ (parseFaceLine line).isOk = true) := by
        intro l hl
        cases ev : strStartsWith l "v " with
        | true => exact Or.inl rfl
        | false =>
          cases ef : strStartsWith l "f " with
          | true => exact Or.inr ⟨rfl, hparse file (List.mem_cons_self ..) l hl ef⟩
          | false => exact absurd ⟨l, hl, ev, ef⟩ hbadhead
      obtain ⟨cnt, segOut, hseg⟩ := mergeSegLines_ok_of_recognized file ofs hrecog
      have hbadrest : ∃ f ∈ rest, ∃ line ∈ f,
          strStartsWith line "v " = false ∧ strStartsWith line "f " = false := by
        obtain ⟨f, hf, l, hl, hlv, hlf⟩ := hbad
        rcases List.mem_cons.mp hf with rfl | hf2
        · exact absurd ⟨l, hl, hlv, hlf⟩ hbadhead
        · exact ⟨f, hf2, l, hl, hlv, hlf⟩
      obtain ⟨bad, hb1, hb2, hb3⟩ := ih (i + 1) (ofs + cnt) hbadrest
        (fun f hf => hparse f (List.mem_cons_of_mem _ hf))
      refine ⟨bad, hb1, hb2, ?_⟩
      simp only [mergeFilesAux, hseg, hb3]

/-- **C6, counterexample.**  The claim says a line of any of the three
recognized kinds (vertex, face, object-name) never causes a failure; but the
merger rejects object-name lines in its input: the single segment
`["o cube"]` consists of one object-name line, yet merging fails. -/
theorem C6_counterexample :
    strStartsWith "o cube" "o " = true
    ∧ merge_obj_files "h" [["o cube"]] = .error (.formatError "o cube") := by
  refine ⟨by decide, by decide⟩

/-- **C6** (amended): the merger recognizes only vertex lines and face lines
in its input segments; any other line — including an object-name line, since
object names are generated by the merger itself — makes the merge fail with
`FormatError` (never silently ignored), and if every line is a vertex line
or a parsable face line the merge succeeds. -/
theorem C6_amended (pre : String) (files : List (List String)) :
    ((∃ file ∈ files, ∃ line ∈ file,
        strStartsWith line "v " = false ∧ strStartsWith line "f " = false) →
     (∀ file ∈ files, ∀ line ∈ file, strStartsWith line "f " = true →
        (parseFaceLine line).isOk = true) →
     ∃ bad, strStartsWith bad "v " = false ∧ strStartsWith bad "f " = false ∧
       merge_obj_files pre files = .error (.formatError bad))
    ∧ ((∀ file ∈ files, ∀ line ∈ file, strStartsWith line "v " = true ∨
        (strStartsWith line "f " = true ∧ (parseFaceLine line).isOk = true)) →
      ∃ out, merge_obj_files pre files = .ok out) :=
  ⟨fun hbad hparse => mergeFilesAux_error_of_bad pre files 0 0 hbad hparse,
   fun hrec => mergeFilesAux_ok_of_recognized pre files 0 0 hrec⟩

/-- Witness for `C6_amended`: a rejected object-name segment and an accepted
vertex/face segment. -/
theorem C6_amended_witness :
    (∃ bad, strStartsWith bad "v " = false ∧ strStartsWith bad "f " = false ∧
      merge_obj_files "h" [["v 0 0 0", "o cube"]] = .error (.formatError bad))
    ∧ (∃ out, merge_obj_files "h" [["v 0 0 0", "f 1"]] = .ok out) :=
  ⟨(C6_amended "h" [["v 0 0 0", "o cube"]]).1 (by decide) (by decide),
   (C6_amended "h" [["v 0 0 0", "f 1"]]).2 (by decide)⟩

/-! ### Solver-output renaming (`import_solver_results`, `convex_decomposition.py`
lines 484-502 and `blender2unreal.py` lines 210-226)

The Python loop enumerates the file's lines; a line starting with `o ` is
replaced by `o <hull_prefix><line-index>`, any other line is copied
verbatim.  The rewritten file is then imported, which creates one object per
object-name line, named after that line. -/

/-- The rewrite loop of `import_solver_results`, carrying the enumeration
index `i`. -/
def renameObjLinesAux (hullPre : String) (i : Nat) : List String → List String
  | [] => []
  | line :: rest =>
    (if strStartsWith line "o " then "o " ++ (hullPre ++ natStr i) else line)
      :: renameObjLinesAux hullPre (i + 1) rest

/-- `import_solver_results`' rewrite of the solver output file. -/
def renameObjLines (hullPre : String) (lines : List String) : List String :=
  renameObjLinesAux hullPre 0 lines

/-- Names of the objects created when the rewritten file is imported: one
object per object-name line, named `<hull_prefix><line-index>`. -/
def importedHullNamesAux (hullPre : String) (i : Nat) : List String → List String
  | [] => []
  | line :: rest =>
    if strStartsWith line "o " then
      (hullPre ++ natStr i) :: importedHullNamesAux hullPre (i + 1) rest
    else importedHullNamesAux hullPre (i + 1) rest

/-- The objects an import of the rewritten solver file creates, in file order. -/
def importedHullNames (hullPre : String) (lines : List String) : List String :=
  importedHullNamesAux hullPre 0 lines

theorem renameObjLinesAux_length (hullPre : String) :
    ∀ (lines : List String) (i : Nat),
    (renameObjLinesAux hullPre i lines).length = lines.length := by
  intro lines
  induction lines with
  | nil => intro i; rfl
  | cons line rest ih => intro i; simp [renameObjLinesAux, ih]

theorem renameObjLinesAux_getElem? (hullPre : String) :
    ∀ (lines : List String) (i k : Nat),
    (renameObjLinesAux hullPre i lines)[k]?
      = (lines[k]?).map (fun l =>
          if strStartsWith l "o " then "o " ++ (hullPre ++ natStr (i + k)) else l) := by
  intro lines
  induction lines with
  | nil => intro i k; simp [renameObjLinesAux]
  | cons line rest ih =>
    intro i k
    cases k with
    | zero => simp [renameObjLinesAux]
    | succ k2 =>
      simp only [renameObjLinesAux, List.getElem?_cons_succ]
      rw [ih (i + 1) k2]
      have harith : i + 1 + k2 = i + (k2 + 1) := by omega
      rw [harith]

theorem natStr_ne_of_ne {i j : Nat} (h : i ≠ j) : natStr i ≠ natStr j :=
  fun he => h (natStr_injective he)

theorem hullLineName_inj (p : String) {i j : Nat}
    (h : "o " ++ (p ++ natStr i) = "o " ++ (p ++ natStr j)) : i = j := by
  by_contra hne
  have hdata := congrArg String.data h
  rw [oConcat_data, oConcat_data] at hdata
  simp only [List.cons.injEq, true_and] at hdata
  rw [String.data_append, String.data_append] at hdata
  have := List.append_cancel_left hdata
  exact natStr_ne_of_ne hne (by rw [String.ext_iff]; exact this)

/-- **C9** (confirmed): the solver-output renaming step rewrites only
object-name lines.  The rewritten file has the same number of lines; every
line not starting with `o ` appears verbatim at its original position; every
`o ` line at position `i` is replaced by the object-name line
`o <hull_prefix><i>`, and the replacement names at two distinct positions
are distinct. -/
theorem C9_rewrite_only_object_lines (hullPre : String) (lines : List String) :
    (renameObjLines hullPre lines).length = lines.length
    ∧ (∀ (i : Nat) (line : String), lines[i]? = some line →
        (strStartsWith line "o " = false →
          (renameObjLines hullPre lines)[i]? = some line)
        ∧ (strStartsWith line "o " = true →
          (renameObjLines hullPre lines)[i]? = some ("o " ++ (hullPre ++ natStr i))))
    ∧ (∀ (i j : Nat) (li lj : String), lines[i]? = some li → lines[j]? = some lj → i ≠ j →
        strStartsWith li "o " = true → strStartsWith lj "o " = true →
        (renameObjLines hullPre lines)[i]? ≠ (renameObjLines hullPre lines)[j]?) := by
  refine ⟨renameObjLinesAux_length hullPre lines 0, ?_, ?_⟩
  · intro i line hline
    unfold renameObjLines
    rw [renameObjLinesAux_getElem? hullPre lines 0 i, hline]
    constructor
    · intro hno; simp [hno]
    · intro hyes; simp [hyes]
  · intro i j li lj hi hj hne hoi hoj
    unfold renameObjLines
    rw [renameObjLinesAux_getElem? hullPre lines 0 i,
      renameObjLinesAux_getElem? hullPre lines 0 j, hi, hj]
    simp only [Option.map_some, Nat.zero_add]
    intro hsome
    have h2 := Option.some.inj hsome
    simp only [hoi, hoj, if_true] at h2
    exact hne (hullLineName_inj hullPre h2)

/-- Witness for `C9_rewrite_only_object_lines` on a concrete three-line file. -/
theorem C9_rewrite_witness :
    (renameObjLines "_tmphull_" ["o a", "v 1 2 3", "o b"]).length
      = (["o a", "v 1 2 3", "o b"] : List String).length
    ∧ (renameObjLines "_tmphull_" ["o a", "v 1 2 3", "o b"])[1]? = some "v 1 2 3"
    ∧ (renameObjLines "_tmphull_" ["o a", "v 1 2 3", "o b"])[0]?
        = some ("o " ++ ("_tmphull_" ++ natStr 0))
    ∧ (renameObjLines "_tmphull_" ["o a", "v 1 2 3", "o b"])[0]?
        ≠ (renameObjLines "_tmphull_" ["o a", "v 1 2 3", "o b"])[2]? :=
  ⟨(C9_rewrite_only_object_lines "_tmphull_" ["o a", "v 1 2 3", "o b"]).1,
   ((C9_rewrite_only_object_lines "_tmphull_" ["o a", "v 1 2 3", "o b"]).2.1
      1 "v 1 2 3" (by decide)).1 (by decide),
   ((C9_rewrite_only_object_lines "_tmphull_" ["o a", "v 1 2 3", "o b"]).2.1
      0 "o a" (by decide)).2 (by decide),
   (C9_rewrite_only_object_lines "_tmphull_" ["o a", "v 1 2 3", "o b"]).2.2
      0 2 "o a" "o b" (by decide) (by decide) (by decide) (by decide) (by decide)⟩

/-! ### The Blender scene model

The host scene is a list of objects — each with a name, an optional parent
(by name; Blender enforces unique object names, which the whole-pipeline
theorems assume as a `Nodup` hypothesis), the collections it is linked to,
and its selection flag — plus the active object, the interaction mode and
the scene's collections. -/

structure SceneObject where
  name : String
  parent : Option String
  collections : List String
  selected : Bool
deriving DecidableEq, Repr

structure Scene where
  objects : List SceneObject
  active : Option String
  mode : String
  collections : List String
deriving DecidableEq, Repr

/-- `bpy.context.selected_objects`. -/
def selectedObjects (s : Scene) : List SceneObject :=
  s.objects.filter (fun o => o.selected)

/-- The names of the currently selected objects, in scene order. -/
def selectedNames (s : Scene) : List String :=
  (selectedObjects s).map (fun o => o.name)

/-- `bpy.ops.object.select_all(action='DESELECT')`. -/
def deselectAll (s : Scene) : Scene :=
  { s with objects := s.objects.map (fun o => { o with selected := false }) }

/-- `obj.select_set(True)` for every object whose name satisfies `p`. -/
def selectWhere (p : String → Bool) (s : Scene) : Scene :=
  { s with objects := s.objects.map (fun o => if p o.name then { o with selected := true } else o) }

/-- `bpy.ops.object.delete()`: remove the selected objects. -/
def deleteSelected (s : Scene) : Scene :=
  { s with objects := s.objects.filter (fun o => !o.selected) }

/-- Deselect everything, then `select_set(True)` each object whose name is in
`names` (the `SelectionGuard.__exit__` restore sequence; object references
are modelled by names). -/
def setSelection (names : List String) (s : Scene) : Scene :=
  { s with objects := s.objects.map (fun o => { o with selected := names.contains o.name }) }

/-- The `UCX_<root>_` ownership name prefix. -/
def ucxPre (rootName : String) : String :=
  "UCX_" ++ rootName ++ "_"

/-! ### The two `SelectionGuard`s

`convex_decomposition.py` lines 43-66 captures the selected objects *and*
the active object on `__enter__` (optionally deselecting everything);
`__exit__` first deselects everything, then runs
`assert self.selected is not None` and `assert self.active is not None`,
and only then restores the captured selection and active object.  The
captured selection is `bpy.context.selected_objects`, a list, which is
never `None` after `__enter__` (an empty selection is `[]`, not `None`) —
but the captured *active object* is `None` exactly when the scene had no
active object, and then the second assert raises `AssertionError` right
after the deselect-all: nothing is restored and the exception propagates
out of the `with` block.  `blender2unreal.py` lines 22-36 captures and
restores only the selected objects (no asserts, no active-object
handling).  A Python `with` block runs `__exit__` on the normal and the
error path alike, so the body is modelled as returning its final scene plus
an error flag, and the guard applies its exit to that scene
unconditionally. -/

/-- `SelectionGuard` of `convex_decomposition.py`.  `.ok` is the normal
exit (captured selection and active object restored); `.error` is the
`AssertionError` exit taken when the captured active object was `none` —
it carries the scene at the moment the exception propagates: everything
deselected, the active object whatever the body left. -/
def selectionGuardCD (clear : Bool) (body : Scene → Scene × Bool) (s : Scene) :
    Except Scene (Scene × Bool) :=
  let captured := selectedNames s
  let s1 := if clear then deselectAll s else s
  let res := body s1
  match s.active with
  | none => .error (deselectAll res.1)
  | some a => .ok ({ setSelection captured res.1 with active := some a }, res.2)

/-- `SelectionGuard` of `blender2unreal.py` (no active-object capture, no
asserts). -/
def selectionGuardBU (clear : Bool) (body : Scene → Scene × Bool) (s : Scene) :
    Scene × Bool :=
  let captured := selectedNames s
  let s1 := if clear then deselectAll s else s
  let res := body s1
  (setSelection captured res.1, res.2)

theorem selectionGuardCD_some (clear : Bool) (body : Scene → Scene × Bool)
    (s : Scene) (a : String) (ha : s.active = some a) :
    selectionGuardCD clear body s
      = .ok ({ setSelection (selectedNames s) (body (if clear then deselectAll s else s)).1
                with active := some a },
             (body (if clear then deselectAll s else s)).2) := by
  unfold selectionGuardCD
  rw [ha]

theorem selectionGuardCD_none (clear : Bool) (body : Scene → Scene × Bool)
    (s : Scene) (ha : s.active = none) :
    selectionGuardCD clear body s
      = .error (deselectAll (body (if clear then deselectAll s else s)).1) := by
  unfold selectionGuardCD
  rw [ha]

theorem selectedNames_deselectAll (sc : Scene) : selectedNames (deselectAll sc) = [] := by
  unfold selectedNames selectedObjects deselectAll
  simp only [List.filter_map]
  have h : ((fun o : SceneObject => o.selected) ∘
        fun o : SceneObject => { o with selected := false })
      = fun _ : SceneObject => false := rfl
  rw [h]
  simp

/-- The scene a guarded step leaves behind: the `.ok` scene on normal exit,
or the scene carried by the propagating `AssertionError` on the `.error`
exit. -/
def resultScene (r : Except Scene Scene) : Scene :=
  match r with
  | .ok sc => sc
  | .error sc => sc

/-- `remove_stale_hulls` (`convex_decomposition.py` lines 95-101): inside a
clearing `SelectionGuard`, select every object whose name starts with
`UCX_<root>_` and delete it; the guard's exit then restores the captured
selection and active object — or, when the scene had no active object,
raises `AssertionError` after its deselect-all (the `.error` path). -/
def remove_stale_hulls (rootName : String) (s : Scene) : Except Scene Scene :=
  (selectionGuardCD true (fun s1 =>
    (deleteSelected (selectWhere (fun n => strStartsWith n (ucxPre rootName)) s1), true)) s).map
    (fun r => r.1)

theorem remove_stale_hulls_ok (rootName : String) (s : Scene) (a : String)
    (ha : s.active = some a) :
    remove_stale_hulls rootName s
      = .ok { setSelection (selectedNames s)
                (deleteSelected (selectWhere (fun n => strStartsWith n (ucxPre rootName))
                  (deselectAll s)))
              with active := some a } := by
  unfold remove_stale_hulls
  rw [selectionGuardCD_some _ _ _ a ha]
  rfl

theorem remove_stale_hulls_none (rootName : String) (s : Scene)
    (ha : s.active = none) :
    remove_stale_hulls rootName s
      = .error (deselectAll (deleteSelected
          (selectWhere (fun n => strStartsWith n (ucxPre rootName)) (deselectAll s)))) := by
  unfold remove_stale_hulls
  rw [selectionGuardCD_none _ _ _ ha]
  rfl

theorem selectWhere_deselectAll_objects (p : String → Bool) (s : Scene) :
    (selectWhere p (deselectAll s)).objects
      = s.objects.map (fun o => { o with selected := p o.name }) := by
  unfold deselectAll selectWhere
  simp only [List.map_map]
  congr 1
  funext o
  by_cases h : p o.name = true <;> simp [Function.comp, h]

theorem removeStale_core_objects (rootName : String) (s : Scene) :
    (deleteSelected (selectWhere (fun n => strStartsWith n (ucxPre rootName)) (deselectAll s))).objects
      = (s.objects.filter (fun o => !(strStartsWith o.name (ucxPre rootName)))).map
          (fun o => { o with selected := false }) := by
  show ((selectWhere (fun n => strStartsWith n (ucxPre rootName)) (deselectAll s)).objects.filter
      (fun o => !o.selected)) = _
  rw [selectWhere_deselectAll_objects, List.filter_map]
  have hp : ((fun o : SceneObject => !o.selected) ∘
        fun o : SceneObject => { o with selected := strStartsWith o.name (ucxPre rootName) })
      = fun o : SceneObject => !(strStartsWith o.name (ucxPre rootName)) := rfl
  rw [hp]
  apply List.map_congr_left
  intro o ho
  have hq := (List.mem_filter.mp ho).2
  simp only [Bool.not_eq_true'] at hq
  rw [hq]

theorem remove_stale_ok_objects (rootName : String) (s : Scene) :
    (setSelection (selectedNames s)
        (deleteSelected (selectWhere (fun n => strStartsWith n (ucxPre rootName)) (deselectAll s)))).objects
      = (s.objects.filter (fun o => !(strStartsWith o.name (ucxPre rootName)))).map
          (fun o => { o with selected := (selectedNames s).contains o.name }) := by
  have h1 : (setSelection (selectedNames s)
        (deleteSelected (selectWhere (fun n => strStartsWith n (ucxPre rootName)) (deselectAll s)))).objects
      = (deleteSelected (selectWhere (fun n => strStartsWith n (ucxPre rootName)) (deselectAll s))).objects.map
          (fun o : SceneObject => { o with selected := (selectedNames s).contains o.name }) := rfl
  rw [h1, removeStale_core_objects, List.map_map]
  rfl

theorem remove_stale_hulls_some (rootName : String) (s : Scene) (a : String)
    (ha : s.active = some a) :
    ∃ s1, remove_stale_hulls rootName s = .ok s1
      ∧ s1.objects = (s.objects.filter (fun o => !(strStartsWith o.name (ucxPre rootName)))).map
          (fun o => { o with selected := (selectedNames s).contains o.name })
      ∧ s1.active = some a ∧ s1.mode = s.mode ∧ s1.collections = s.collections :=
  ⟨_, remove_stale_hulls_ok rootName s a ha, remove_stale_ok_objects rootName s, rfl, rfl, rfl⟩

/-- The surviving object names after `remove_stale_hulls` — the same on the
normal exit and on the `AssertionError` exit, since the deletion happens
inside the guard body, before the guard's exit runs. -/
theorem remove_stale_result_names (rootName : String) (s : Scene) :
    (resultScene (remove_stale_hulls rootName s)).objects.map (fun o => o.name)
      = (s.objects.filter (fun o => !(strStartsWith o.name (ucxPre rootName)))).map
          (fun o => o.name) := by
  cases e : s.active with
  | none =>
    rw [remove_stale_hulls_none rootName s e]
    have h1 : (resultScene (Except.error (deselectAll (deleteSelected
          (selectWhere (fun n => strStartsWith n (ucxPre rootName)) (deselectAll s)))))).objects
        = (deleteSelected (selectWhere (fun n => strStartsWith n (ucxPre rootName))
            (deselectAll s))).objects.map
            (fun o : SceneObject => { o with selected := false }) := rfl
    rw [h1, removeStale_core_objects, List.map_map, List.map_map]
    rfl
  | some a =>
    rw [remove_stale_hulls_ok rootName s a e]
    have h1 : (resultScene (Except.ok ({ setSelection (selectedNames s)
          (deleteSelected (selectWhere (fun n => strStartsWith n (ucxPre rootName))
            (deselectAll s))) with active := some a } : Scene))).objects
        = (setSelection (selectedNames s)
            (deleteSelected (selectWhere (fun n => strStartsWith n (ucxPre rootName))
              (deselectAll s)))).objects := rfl
    rw [h1, remove_stale_ok_objects, List.map_map]
    rfl

/-- **C2** (confirmed): removing stale hulls for a source object removes
exactly the scene objects whose name starts with `UCX_<source-name>_`
(including the trailing underscore) — on the guard's normal exit and on its
`AssertionError` exit alike, since the deletion precedes the guard's exit:
an object survives iff its name does not carry the prefix; every
`UCX_Cube_<n>` name carries the `UCX_Cube_` prefix, and `UCX_CubeExtra_0`
does not. -/
theorem C2_remove_stale_ownership (rootName : String) (s : Scene) :
    ((resultScene (remove_stale_hulls rootName s)).objects.map (fun o => o.name)
      = ((s.objects.filter (fun o => !(strStartsWith o.name (ucxPre rootName)))).map
          (fun o => o.name)))
    ∧ (∀ n : String,
        n ∈ (resultScene (remove_stale_hulls rootName s)).objects.map (fun o => o.name) ↔
        (n ∈ s.objects.map (fun o => o.name)
          ∧ strStartsWith n (ucxPre rootName) = false))
    ∧ (∀ k : Nat, strStartsWith ("UCX_Cube_" ++ natStr k) (ucxPre "Cube") = true)
    ∧ strStartsWith "UCX_CubeExtra_0" (ucxPre "Cube") = false := by
  refine ⟨remove_stale_result_names rootName s, ?_, ?_, by decide⟩
  · intro n
    rw [remove_stale_result_names]
    constructor
    · intro hn
      obtain ⟨o, ho, rfl⟩ := List.mem_map.mp hn
      rw [List.mem_filter] at ho
      refine ⟨List.mem_map.mpr ⟨o, ho.1, rfl⟩, ?_⟩
      have h2 := ho.2
      simp only [Bool.not_eq_true'] at h2
      exact h2
    · rintro ⟨hn, hpre⟩
      obtain ⟨o, ho, rfl⟩ := List.mem_map.mp hn
      refine List.mem_map.mpr ⟨o, List.mem_filter.mpr ⟨ho, ?_⟩, rfl⟩
      simp [hpre]
  · intro k
    have h : "UCX_Cube_" ++ natStr k = ucxPre "Cube" ++ natStr k := rfl
    rw [h]
    exact strStartsWith_concat _ _

/-! ### Hull renaming (`rename_hulls`, `convex_decomposition.py` lines 103-115)

The Python builds the list of all scene objects whose name starts with the
temporary hull prefix — whatever their origin — and renames the `i`-th of
them (in scene-table enumeration order) to `UCX_<parent>_<i>`. -/

/-- The final Unreal-convention hull name `UCX_<root>_<i>`. -/
def ucxName (rootName : String) (i : Nat) : String :=
  "UCX_" ++ rootName ++ "_" ++ natStr i

/-- The renaming loop: walks the scene's object table carrying the
enumeration counter `i` over the prefix-matching objects; returns the new
object table and the renamed objects (as their new names). -/
def renameHullsAux (hullPre rootName : String) (i : Nat) :
    List SceneObject → List SceneObject × List String
  | [] => ([], [])
  | o :: rest =>
    if strStartsWith o.name hullPre then
      let res := renameHullsAux hullPre rootName (i + 1) rest
      ({ o with name := ucxName rootName i } :: res.1, ucxName rootName i :: res.2)
    else
      let res := renameHullsAux hullPre rootName i rest
      (o :: res.1, res.2)

/-- `rename_hulls(hull_prefix, parent)`: rename every prefix-matching scene
object and return the renamed objects. -/
def rename_hulls (hullPre rootName : String) (s : Scene) : Scene × List String :=
  let res := renameHullsAux hullPre rootName 0 s.objects
  ({ s with objects := res.1 }, res.2)

theorem renameHullsAux_snd (hullPre rootName : String) :
    ∀ (objs : List SceneObject) (i : Nat),
    (renameHullsAux hullPre rootName i objs).2
      = (List.range ((objs.filter (fun o => strStartsWith o.name hullPre)).length)).map
          (fun k => ucxName rootName (i + k)) := by
  intro objs
  induction objs with
  | nil => intro i; simp [renameHullsAux]
  | cons o rest ih =>
    intro i
    by_cases h : strStartsWith o.name hullPre = true
    · have hmapeq : (fun k => ucxName rootName (i + 1 + k))
          = ((fun k => ucxName rootName (i + k)) ∘ Nat.succ) := by
        funext k
        simp only [Function.comp_apply]
        have harith : i + 1 + k = i + (k + 1) := by omega
        rw [harith]
      simp only [renameHullsAux, if_pos h, List.filter_cons, h, if_true, ih (i + 1),
        List.length_cons, List.range_succ_eq_map, List.map_cons, List.map_map,
        Nat.add_zero, hmapeq]
    · simp only [renameHullsAux, if_neg h, ih i, List.filter_cons]

theorem renameHullsAux_fst_getElem? (hullPre rootName : String) :
    ∀ (objs : List SceneObject) (i k : Nat),
    ((renameHullsAux hullPre rootName i objs).1)[k]?
      = (objs[k]?).map (fun o =>
          if strStartsWith o.name hullPre then
            { o with name := ucxName rootName (i + ((objs.take k).filter (fun o2 => strStartsWith o2.name hullPre)).length) }
          else o) := by
  intro objs
  induction objs with
  | nil => intro i k; simp [renameHullsAux]
  | cons o rest ih =>
    intro i k
    cases k with
    | zero =>
      by_cases h : strStartsWith o.name hullPre = true
      · simp [renameHullsAux, h]
      · have h2 : strStartsWith o.name hullPre = false := by
          cases e : strStartsWith o.name hullPre with
          | false => rfl
          | true => exact absurd e h
        simp [renameHullsAux, h2]
    | succ k2 =>
      by_cases h : strStartsWith o.name hullPre = true
      · simp only [renameHullsAux, if_pos h, List.getElem?_cons_succ, ih (i + 1) k2,
          List.take_succ_cons, List.filter_cons, h, if_true, List.length_cons]
        cases rest[k2]? with
        | none => rfl
        | some o2 =>
          have harith : i + 1 + ((rest.take k2).filter (fun o2 => strStartsWith o2.name hullPre)).length
              = i + (((rest.take k2).filter (fun o2 => strStartsWith o2.name hullPre)).length + 1) := by
            omega
          simp [harith]
      · have h2 : strStartsWith o.name hullPre = false := by
          cases e : strStartsWith o.name hullPre with
          | false => rfl
          | true => exact absurd e h
        simp only [renameHullsAux, if_neg h, List.getElem?_cons_succ,
          List.take_succ_cons, List.filter_cons, h2, Bool.false_eq_true, if_false]
        exact ih i k2

/-- **C10** (confirmed): `rename_hulls` renames and returns exactly the
scene objects whose name starts with the temporary hull prefix — whatever
produced them — and the `j`-th prefix-matching object in scene-table order
receives final index `j` (0-based): the returned names are
`UCX_<root>_0 .. UCX_<root>_(k-1)` for `k` matching objects, the object at
table position `p` is renamed to `UCX_<root>_<matches before p>` when it
matches and is untouched otherwise. -/
theorem C10_rename_hulls_enumeration (hullPre rootName : String) (s : Scene) :
    ((rename_hulls hullPre rootName s).2
      = (List.range ((s.objects.filter (fun o => strStartsWith o.name hullPre)).length)).map
          (fun j => ucxName rootName j))
    ∧ (∀ (p : Nat) (o : SceneObject), s.objects[p]? = some o →
        (strStartsWith o.name hullPre = true →
          ((rename_hulls hullPre rootName s).1.objects)[p]?
            = some { o with name := ucxName rootName (((s.objects.take p).filter (fun o2 => strStartsWith o2.name hullPre)).length) })
        ∧ (strStartsWith o.name hullPre = false →
          ((rename_hulls hullPre rootName s).1.objects)[p]? = some o)) := by
  constructor
  · unfold rename_hulls
    rw [renameHullsAux_snd hullPre rootName s.objects 0]
    simp
  · intro p o hp
    unfold rename_hulls
    constructor
    · intro hmatch
      rw [renameHullsAux_fst_getElem? hullPre rootName s.objects 0 p, hp]
      simp [hmatch]
    · intro hno
      rw [renameHullsAux_fst_getElem? hullPre rootName s.objects 0 p, hp]
      simp [hno]

/-- Witness for `C10_rename_hulls_enumeration` on a concrete scene holding a
stray pre-existing `_tmphull_`-prefixed object next to freshly imported ones. -/
theorem C10_rename_hulls_witness :
    ((rename_hulls "_tmphull_" "Cube"
        ⟨[⟨"Cube", none, ["Scene"], true⟩, ⟨"_tmphull_stray", none, ["Scene"], false⟩,
          ⟨"_tmphull_0", none, ["Scene"], false⟩], some "Cube", "OBJECT", ["Scene"]⟩).2
      = ["UCX_Cube_0", "UCX_Cube_1"])
    ∧ ((rename_hulls "_tmphull_" "Cube"
        ⟨[⟨"Cube", none, ["Scene"], true⟩, ⟨"_tmphull_stray", none, ["Scene"], false⟩,
          ⟨"_tmphull_0", none, ["Scene"], false⟩], some "Cube", "OBJECT", ["Scene"]⟩).1.objects)[1]?
      = some ⟨"UCX_Cube_0", none, ["Scene"], false⟩
    ∧ ((rename_hulls "_tmphull_" "Cube"
        ⟨[⟨"Cube", none, ["Scene"], true⟩, ⟨"_tmphull_stray", none, ["Scene"], false⟩,
          ⟨"_tmphull_0", none, ["Scene"], false⟩], some "Cube", "OBJECT", ["Scene"]⟩).1.objects)[0]?
      = some ⟨"Cube", none, ["Scene"], true⟩ := by
  refine ⟨?_, ?_, ?_⟩
  · have h := (C10_rename_hulls_enumeration "_tmphull_" "Cube"
      ⟨[⟨"Cube", none, ["Scene"], true⟩, ⟨"_tmphull_stray", none, ["Scene"], false⟩,
        ⟨"_tmphull_0", none, ["Scene"], false⟩], some "Cube", "OBJECT", ["Scene"]⟩).1
    rw [h]
    decide
  · have h := ((C10_rename_hulls_enumeration "_tmphull_" "Cube"
      ⟨[⟨"Cube", none, ["Scene"], true⟩, ⟨"_tmphull_stray", none, ["Scene"], false⟩,
        ⟨"_tmphull_0", none, ["Scene"], false⟩], some "Cube", "OBJECT", ["Scene"]⟩).2
      1 ⟨"_tmphull_stray", none, ["Scene"], false⟩ (by decide)).1 (by decide)
    rw [h]
    decide
  · have h := ((C10_rename_hulls_enumeration "_tmphull_" "Cube"
      ⟨[⟨"Cube", none, ["Scene"], true⟩, ⟨"_tmphull_stray", none, ["Scene"], false⟩,
        ⟨"_tmphull_0", none, ["Scene"], false⟩], some "Cube", "OBJECT", ["Scene"]⟩).2
      0 ⟨"Cube", none, ["Scene"], true⟩ (by decide)).2 (by decide)
    rw [h]

/-! ### Selection restoration -/

theorem filter_contains_of_sublist :
    ∀ {c l : List String}, c.Sublist l → l.Nodup →
    l.filter (fun x => c.contains x) = c := by
  intro c l hs
  induction hs with
  | slnil => intro _; rfl
  | @cons c2 l2 a hsub ih =>
    intro hn
    obtain ⟨hna, hn2⟩ := List.nodup_cons.mp hn
    have hca : c2.contains a = false := by
      cases e : c2.contains a with
      | false => rfl
      | true => exact absurd (hsub.subset (List.elem_iff.mp e)) hna
    rw [List.filter_cons, hca]
    simp only [Bool.false_eq_true, if_false]
    exact ih hn2
  | @cons₂ c2 l2 a hsub ih =>
    intro hn
    obtain ⟨hna, hn2⟩ := List.nodup_cons.mp hn
    have hca : (a :: c2).contains a = true := List.elem_iff.mpr (List.mem_cons_self ..)
    rw [List.filter_cons, hca]
    simp only [if_true]
    congr 1
    rw [List.filter_congr (fun x hx => ?_), ih hn2]
    rw [List.contains_cons]
    have hxa : (x == a) = false := beq_eq_false_iff_ne.mpr (fun he => hna (he ▸ hx))
    rw [hxa, Bool.false_or]

theorem selectedNames_setSelection (names : List String) (sc : Scene) :
    selectedNames (setSelection names sc)
      = (sc.objects.map (fun o => o.name)).filter (fun n => names.contains n) := by
  unfold selectedNames selectedObjects setSelection
  simp only [List.filter_map, List.map_map]
  rfl

theorem selectedNames_sublist (s : Scene) :
    (selectedNames s).Sublist (s.objects.map (fun o => o.name)) := by
  unfold selectedNames selectedObjects
  exact (List.filter_sublist s.objects).map (fun o => o.name)

/-- Restoring a previously captured selection over an object table with the
same (duplicate-free) names yields back exactly the captured selection. -/
theorem setSelection_restores (s : Scene) (sc2 : Scene)
    (hnames : sc2.objects.map (fun o => o.name) = s.objects.map (fun o => o.name))
    (hnodup : (s.objects.map (fun o => o.name)).Nodup) :
    selectedNames (setSelection (selectedNames s) sc2) = selectedNames s := by
  rw [selectedNames_setSelection, hnames]
  exact filter_contains_of_sublist (selectedNames_sublist s) hnodup

/-! ### C7: guard restores and the active-object assert -/

/-- **C7, counterexample.**  The claim requires every selection-touching
operation to capture *and restore the active object*.  The
`blender2unreal.py` guard does not: a body that moves the active object to
`Hull` leaves it there after the guard exits, instead of restoring `Cube`. -/
theorem C7_counterexample :
    (selectionGuardBU false (fun sc => ({ sc with active := some "Hull" }, false))
      ⟨[⟨"Cube", none, ["Scene"], true⟩], some "Cube", "OBJECT", ["Scene"]⟩).1.active
      = some "Hull"
    ∧ (⟨[⟨"Cube", none, ["Scene"], true⟩], some "Cube", "OBJECT",
        ["Scene"]⟩ : Scene).active = some "Cube"
    ∧ some "Hull" ≠ (some "Cube" : Option String) := by
  refine ⟨rfl, rfl, by decide⟩

/-- **C7** (amended): both guards run their exit on normal and error return
alike (Python `with` semantics).  The `convex_decomposition.py` guard
captures the selected objects and the active object; when an active object
was captured it restores both, but when the scene had no active object its
exit's `assert self.active is not None` raises `AssertionError` right after
the deselect-all, so nothing is restored: the resulting selection is empty
and the active object is whatever the body left.  The `blender2unreal.py`
guard restores only the captured selection — its resulting active object is
whatever the body left.  Selection restoration is stated for bodies that
preserve the scene's duplicate-free object-name table, matching Blender's
restriction that the captured object references still exist on exit. -/
theorem C7_amended (clear : Bool) (body : Scene → Scene × Bool) (s : Scene) :
    (∀ a : String, s.active = some a →
      selectionGuardCD clear body s
        = .ok ({ setSelection (selectedNames s)
                  (body (if clear then deselectAll s else s)).1 with active := some a },
               (body (if clear then deselectAll s else s)).2))
    ∧ (s.active = none →
        selectionGuardCD clear body s
          = .error (deselectAll (body (if clear then deselectAll s else s)).1)
        ∧ ∀ sc : Scene, selectionGuardCD clear body s = .error sc →
            selectedNames sc = []
            ∧ sc.active = (body (if clear then deselectAll s else s)).1.active)
    ∧ (∀ (a : String) (r : Scene × Bool), s.active = some a →
        selectionGuardCD clear body s = .ok r →
        r.1.active = s.active
        ∧ r.2 = (body (if clear then deselectAll s else s)).2
        ∧ ((body (if clear then deselectAll s else s)).1.objects.map (fun o => o.name)
              = s.objects.map (fun o => o.name) →
           (s.objects.map (fun o => o.name)).Nodup →
           selectedNames r.1 = selectedNames s))
    ∧ ((selectionGuardBU clear body s).1.active
        = (body (if clear then deselectAll s else s)).1.active)
    ∧ ((body (if clear then deselectAll s else s)).1.objects.map (fun o => o.name)
          = s.objects.map (fun o => o.name) →
       (s.objects.map (fun o => o.name)).Nodup →
       selectedNames (selectionGuardBU clear body s).1 = selectedNames s) := by
  refine ⟨?_, ?_, ?_, rfl, ?_⟩
  · intro a ha
    exact selectionGuardCD_some clear body s a ha
  · intro ha
    refine ⟨selectionGuardCD_none clear body s ha, ?_⟩
    intro sc hsc
    rw [selectionGuardCD_none clear body s ha] at hsc
    have he := Except.error.inj hsc
    rw [← he]
    exact ⟨selectedNames_deselectAll _, rfl⟩
  · intro a r ha hr
    rw [selectionGuardCD_some clear body s a ha] at hr
    have he := Except.ok.inj hr
    rw [← he]
    refine ⟨ha.symm, rfl, ?_⟩
    intro hnames hnodup
    show selectedNames (setSelection (selectedNames s)
        (body (if clear then deselectAll s else s)).1) = selectedNames s
    exact setSelection_restores s _ hnames hnodup
  · intro hnames hnodup
    exact setSelection_restores s _ hnames hnodup

/-- Witness for `C7_amended`: a concrete scene with an active object — the
CD guard exits normally and restores selection and active object — and one
without — the CD guard raises after its deselect-all, leaving everything
deselected and the body's active object in place. -/
theorem C7_amended_witness :
    (selectionGuardCD true
        (fun sc => (selectWhere (fun n => n == "Hull")
          { sc with collections := sc.collections ++ ["extra"] }, true))
        ⟨[⟨"Cube", none, ["Scene"], true⟩, ⟨"Hull", none, ["Scene"], false⟩],
          some "Cube", "OBJECT", ["Scene"]⟩
      = .ok (⟨[⟨"Cube", none, ["Scene"], true⟩, ⟨"Hull", none, ["Scene"], false⟩],
          some "Cube", "OBJECT", ["Scene", "extra"]⟩, true))
    ∧ selectedNames (⟨[⟨"Cube", none, ["Scene"], true⟩, ⟨"Hull", none, ["Scene"], false⟩],
          some "Cube", "OBJECT", ["Scene", "extra"]⟩ : Scene)
        = selectedNames (⟨[⟨"Cube", none, ["Scene"], true⟩, ⟨"Hull", none, ["Scene"], false⟩],
          some "Cube", "OBJECT", ["Scene"]⟩ : Scene)
    ∧ (selectionGuardCD true (fun sc => ({ sc with active := some "Hull" }, false))
        ⟨[⟨"Cube", none, ["Scene"], true⟩, ⟨"Hull", none, ["Scene"], false⟩],
          none, "OBJECT", ["Scene"]⟩
      = .error ⟨[⟨"Cube", none, ["Scene"], false⟩, ⟨"Hull", none, ["Scene"], false⟩],
          some "Hull", "OBJECT", ["Scene"]⟩)
    ∧ selectedNames (⟨[⟨"Cube", none, ["Scene"], false⟩, ⟨"Hull", none, ["Scene"], false⟩],
          some "Hull", "OBJECT", ["Scene"]⟩ : Scene) = []
    ∧ selectedNames ((selectionGuardBU true
        (fun sc => (selectWhere (fun n => n == "Hull")
          { sc with collections := sc.collections ++ ["extra"] }, true))
        ⟨[⟨"Cube", none, ["Scene"], true⟩, ⟨"Hull", none, ["Scene"], false⟩],
          some "Cube", "OBJECT", ["Scene"]⟩).1)
        = selectedNames (⟨[⟨"Cube", none, ["Scene"], true⟩, ⟨"Hull", none, ["Scene"], false⟩],
          some "Cube", "OBJECT", ["Scene"]⟩ : Scene) := by
  refine ⟨((C7_amended true
        (fun sc => (selectWhere (fun n => n == "Hull")
          { sc with collections := sc.collections ++ ["extra"] }, true))
        ⟨[⟨"Cube", none, ["Scene"], true⟩, ⟨"Hull", none, ["Scene"], false⟩],
          some "Cube", "OBJECT", ["Scene"]⟩).1 "Cube" rfl).trans (by decide),
      ((C7_amended true
        (fun sc => (selectWhere (fun n => n == "Hull")
          { sc with collections := sc.collections ++ ["extra"] }, true))
        ⟨[⟨"Cube", none, ["Scene"], true⟩, ⟨"Hull", none, ["Scene"], false⟩],
          some "Cube", "OBJECT", ["Scene"]⟩).2.2.1 "Cube"
        (⟨[⟨"Cube", none, ["Scene"], true⟩, ⟨"Hull", none, ["Scene"], false⟩],
          some "Cube", "OBJECT", ["Scene", "extra"]⟩, true) rfl (by decide)).2.2
        (by decide) (by decide),
      ((C7_amended true (fun sc => ({ sc with active := some "Hull" }, false))
        ⟨[⟨"Cube", none, ["Scene"], true⟩, ⟨"Hull", none, ["Scene"], false⟩],
          none, "OBJECT", ["Scene"]⟩).2.1 rfl).1.trans (by decide),
      (((C7_amended true (fun sc => ({ sc with active := some "Hull" }, false))
        ⟨[⟨"Cube", none, ["Scene"], true⟩, ⟨"Hull", none, ["Scene"], false⟩],
          none, "OBJECT", ["Scene"]⟩).2.1 rfl).2
        ⟨[⟨"Cube", none, ["Scene"], false⟩, ⟨"Hull", none, ["Scene"], false⟩],
          some "Hull", "OBJECT", ["Scene"]⟩ (by decide)).1,
      (C7_amended true
        (fun sc => (selectWhere (fun n => n == "Hull")
          { sc with collections := sc.collections ++ ["extra"] }, true))
        ⟨[⟨"Cube", none, ["Scene"], true⟩, ⟨"Hull", none, ["Scene"], false⟩],
          some "Cube", "OBJECT", ["Scene"]⟩).2.2.2.2 (by decide) (by decide)⟩

/-! ### Solver invocation (`run_vhacd` lines 423-452, `run_coacd` lines
454-482 of `convex_decomposition.py`)

Filesystem paths are component lists.  Both runners build their command
list, call `subprocess.run(cmd, cwd=obj_file.parent)` — synchronous and
blocking — and return a declared output path.  The `CompletedProcess` that
`subprocess.run` returns is discarded, so the model takes the external
process's result as an argument and shows the outcome independent of it.
Float-valued properties appear as their already-rendered `str()` images
(floating point is out of scope). -/

abbrev FsPath := List String

/-- `str(path)` — only used to place paths inside the command list. -/
def pathStr (p : FsPath) : String :=
  String.intercalate "/" p

/-- `path.parent`. -/
def parentDir (p : FsPath) : FsPath :=
  p.dropLast

/-- `Path(binary).name`: the final path component, `""` for an empty path. -/
def pathName (p : FsPath) : String :=
  (p.getLast?).getD ""

structure VHACDProps where
  i_voxel_resolution : Nat
  i_max_recursion_depth : Nat
  i_max_hull_vert_count : Nat
  i_min_edge_length : Nat
  f_volume_error_percent : String
  b_shrinkwrap : Bool
  b_split_location : Bool
  e_fill_mode : String
deriving DecidableEq, Repr

structure CoACDProps where
  f_threshold : String
  f_k : String
  i_mcts_iterations : Nat
  i_mcts_depth : Nat
  i_mcts_node : Nat
  i_prep_resolution : Nat
  i_resolution : Nat
  b_no_preprocess : Bool
  b_merge : Bool
  b_pca : Bool
deriving DecidableEq, Repr

/-- What the awaited external process produced. -/
structure ProcResult where
  exitCode : Int
  stdout : String
  stderr : String
deriving DecidableEq, Repr

/-- Modelled from the spec: the spec's `SolverExecutionError` carrying the
exit code.  The source defines no such exception; the constructor exists so
the claim about it can be stated against the code's behaviour. -/
inductive SolverError where
  | executionError (exitCode : Int)
deriving DecidableEq, Repr

/-- One solver invocation: the built command, the working directory handed
to `subprocess.run`, and the reported outcome. -/
structure SolverRun where
  cmd : List String
  cwd : FsPath
  result : Except SolverError FsPath
deriving DecidableEq, Repr

/-- `run_vhacd` — builds the flag list, runs the process with
`cwd=obj_file.parent`, and returns `obj_file.parent / "decomp.obj"`;
the process result is never consulted. -/
def run_vhacd (obj_file : FsPath) (props : VHACDProps) (binary : FsPath)
    (_proc : ProcResult) : SolverRun :=
  let cmd := [pathStr binary, pathStr obj_file,
    "-r", natStr props.i_voxel_resolution,
    "-d", natStr props.i_max_recursion_depth,
    "-v", natStr props.i_max_hull_vert_count,
    "-l", natStr props.i_min_edge_length,
    "-e", props.f_volume_error_percent,
    "-s", if props.b_shrinkwrap then "true" else "false",
    "-p", if props.b_split_location then "true" else "false",
    "-a", "true",
    "-g", "true",
    "-f", props.e_fill_mode]
  { cmd := cmd, cwd := parentDir obj_file,
    result := .ok (parentDir obj_file ++ ["decomp.obj"]) }

/-- `run_coacd` — builds the flag list, runs the process with
`cwd=obj_file.parent`, and returns `obj_file.parent / "hulls.obj"`; the
process result is never consulted. -/
def run_coacd (obj_file : FsPath) (props : CoACDProps) (binary : FsPath)
    (_proc : ProcResult) : SolverRun :=
  let result_file := parentDir obj_file ++ ["hulls.obj"]
  let preparg := if props.b_no_preprocess then "off" else "auto"
  let cmd0 := [pathStr binary, "--input", pathStr obj_file, "--output", pathStr result_file,
    "--threshold", props.f_threshold,
    "-k", props.f_k,
    "--mcts-iteration", natStr props.i_mcts_iterations,
    "--mcts-depth", natStr props.i_mcts_depth,
    "--mcts-node", natStr props.i_mcts_node,
    "--prep-resolution", natStr props.i_prep_resolution,
    "--resolution", natStr props.i_resolution,
    "--preprocess-mode", preparg]
  let cmd1 := if props.b_pca then cmd0 ++ ["--pca"] else cmd0
  let cmd2 := if !props.b_merge then cmd1 ++ ["--no-merge"] else cmd1
  { cmd := cmd2, cwd := parentDir obj_file, result := .ok result_file }

/-- **C5, counterexample.**  The claim says the solver run fails with
`SolverExecutionError` carrying the exit code whenever the external process
exits non-zero.  `subprocess.run` is called without `check=True` and its
`CompletedProcess` is dropped: with exit code `1` the run still reports the
declared output path and raises nothing. -/
theorem C5_counterexample :
    (run_vhacd ["tmp", "src.obj"]
        ⟨100000, 10, 64, 2, "10.0", true, false, "flood"⟩
        ["usr", "bin", "TestVHACD"] ⟨1, "", ""⟩).result
      = .ok ["tmp", "decomp.obj"]
    ∧ ((1 : Int) ≠ 0) := by
  refine ⟨rfl, by decide⟩

/-- **C5** (amended): both runners execute the built command with working
directory set to the input file's directory and wait for the process
synchronously, but the exit status is ignored — the run always reports the
fixed declared output path, never a `SolverExecutionError` — and solver
stdout/stderr never influence the outcome (the whole run is independent of
the process result). -/
theorem C5_amended (obj_file : FsPath) (vp : VHACDProps) (cp : CoACDProps)
    (binary : FsPath) (p q : ProcResult) :
    ((run_vhacd obj_file vp binary p).cwd = parentDir obj_file)
    ∧ ((run_coacd obj_file cp binary p).cwd = parentDir obj_file)
    ∧ (run_vhacd obj_file vp binary p = run_vhacd obj_file vp binary q)
    ∧ (run_coacd obj_file cp binary p = run_coacd obj_file cp binary q)
    ∧ ((run_vhacd obj_file vp binary p).result
        = .ok (parentDir obj_file ++ ["decomp.obj"]))
    ∧ ((run_coacd obj_file cp binary p).result
        = .ok (parentDir obj_file ++ ["hulls.obj"])) :=
  ⟨rfl, rfl, rfl, rfl, rfl, rfl⟩

/-! ### Parenting that preserves the world transform (C8)

`execute` (lines 555-557) sets `obj.parent = root_obj` and
`obj.matrix_parent_inverse = root_obj.matrix_world.inverted()`.  Blender
composes a child's world transform as
`parent.matrix_world @ matrix_parent_inverse @ matrix_basis`; `mathutils`
inverts only invertible matrices, so transforms are modelled in the group of
invertible 4×4 rational matrices (floating point out of scope). -/

abbrev Mat4 := Matrix (Fin 4) (Fin 4) ℚ

/-- Blender's world-transform composition for a parented object. -/
def worldMatrix (parentWorld parentInv basis : Mat4ˣ) : Mat4ˣ :=
  parentWorld * parentInv * basis

/-- The reconciliation step: parent the hull to the root and store the
inverse of the root's world matrix as `matrix_parent_inverse`; the hull's
basis is its world transform at import (it was unparented). -/
def parentPreservingTransform (rootWorld hullBasis : Mat4ˣ) : Mat4ˣ :=
  worldMatrix rootWorld rootWorld⁻¹ hullBasis

/-- **C8** (confirmed): storing `matrix_parent_inverse =
parent.matrix_world.inverted()` at parenting time makes the hull's world
transform after reconciliation equal its world transform at import, so every
world-space vertex position is unchanged. -/
theorem C8_parenting_preserves_world (rootWorld hullBasis : Mat4ˣ) :
    parentPreservingTransform rootWorld hullBasis = hullBasis
    ∧ ∀ v : Fin 4 → ℚ,
      (parentPreservingTransform rootWorld hullBasis).val.mulVec v
        = hullBasis.val.mulVec v := by
  have h : parentPreservingTransform rootWorld hullBasis = hullBasis := by
    unfold parentPreservingTransform worldMatrix
    rw [mul_inv_cancel, one_mul]
  exact ⟨h, fun v => by rw [h]⟩

/-! ### The decomposition pipeline (`ConvexDecompositionRunOperator.execute`,
`convex_decomposition.py` lines 504-559) and the panel's binary check
(`ConvexDecompositionPanel.draw`, lines 577-600)

The solver output file is given as its list of lines; the fresh temporary
directory, the awaited process result and the collection that
`bpy.ops.wm.obj_import` links new objects into are parameters.  Filesystem
side effects appear as an event trace.  The operator performs no binary
check: when the binary cannot be executed, `subprocess.run` raises the
host's exception (`FileNotFoundError` for a missing file, `PermissionError`
for the empty path, which `Path("")` stringifies to `"."`) — modelled as
the single `launchError` outcome; the `solverMissingError` outcome is
modelled from the spec and shown never to be produced.  The
`assertionError` outcome is the Python `AssertionError` raised by
`SelectionGuard.__exit__` when the scene has no active object; it
propagates out of `execute`. -/

inductive PipelineEv where
  | removedStale
  | createdTempDir
  | wroteTempFile
  | ranSolver (cmd : List String) (cwd : FsPath)
  | importedResults
deriving DecidableEq, Repr

inductive RunOutcome where
  | finished
  | precondFailed
  | launchError
  | solverMissingError
  | assertionError
deriving DecidableEq, Repr

structure RunResult where
  scene : Scene
  events : List PipelineEv
  outcome : RunOutcome
deriving DecidableEq, Repr

/-- `export_mesh_for_solver`: inside a clearing `SelectionGuard`, select the
root object and write the OBJ file (the write is the caller's
`wroteTempFile` event and happens inside the guard body, before the guard's
exit); the net scene effect is the guard's exit. -/
def export_mesh_for_solver (rootName : String) (s : Scene) : Except Scene Scene :=
  (selectionGuardCD true (fun s1 => (selectWhere (fun n => n == rootName) s1, true)) s).map
    (fun r => r.1)

theorem export_mesh_ok (rootName : String) (s : Scene) (a : String)
    (ha : s.active = some a) :
    export_mesh_for_solver rootName s
      = .ok { setSelection (selectedNames s)
                (selectWhere (fun n => n == rootName) (deselectAll s))
              with active := some a } := by
  unfold export_mesh_for_solver
  rw [selectionGuardCD_some _ _ _ a ha]
  rfl

theorem export_mesh_ok_objects (rootName : String) (s : Scene) :
    (setSelection (selectedNames s)
        (selectWhere (fun n => n == rootName) (deselectAll s))).objects
      = s.objects.map (fun o => { o with selected := (selectedNames s).contains o.name }) := by
  unfold deselectAll selectWhere setSelection
  simp only [List.map_map]
  congr 1
  funext o
  by_cases h : (o.name == rootName) = true <;> simp [Function.comp, h]

theorem export_mesh_some (rootName : String) (s : Scene) (a : String)
    (ha : s.active = some a) :
    ∃ s2, export_mesh_for_solver rootName s = .ok s2
      ∧ s2.objects = s.objects.map
          (fun o => { o with selected := (selectedNames s).contains o.name })
      ∧ s2.active = some a ∧ s2.mode = s.mode ∧ s2.collections = s.collections :=
  ⟨_, export_mesh_ok rootName s a ha, export_mesh_ok_objects rootName s, rfl, rfl, rfl⟩

/-- The objects a solver-output import creates: one per object-name line,
named `<tmp_prefix><line-index>`, linked into the import collection and
selected. -/
def importedObjects (tmpPre importColl : String) (solverOut : List String) : List SceneObject :=
  (importedHullNames tmpPre solverOut).map (fun n => SceneObject.mk n none [importColl] true)

/-- `import_solver_results`: rewrite the solver file's object-name lines
(`renameObjLines`), then import it inside a (non-clearing)
`SelectionGuard`; the guard's exit then restores the captured selection and
active object, or raises `AssertionError` when no active object was
captured. -/
def import_solver_results (tmpPre importColl : String) (solverOut : List String)
    (s : Scene) : Except Scene Scene :=
  (selectionGuardCD false (fun s1 =>
    ({ s1 with objects := s1.objects ++ importedObjects tmpPre importColl solverOut }, true)) s).map
    (fun r => r.1)

theorem import_solver_ok (tmpPre importColl : String) (solverOut : List String)
    (s : Scene) (a : String) (ha : s.active = some a) :
    import_solver_results tmpPre importColl solverOut s
      = .ok { setSelection (selectedNames s)
                { s with objects := s.objects ++ importedObjects tmpPre importColl solverOut }
              with active := some a } := by
  unfold import_solver_results
  rw [selectionGuardCD_some _ _ _ a ha]
  rfl

theorem import_solver_some (tmpPre importColl : String) (solverOut : List String)
    (s : Scene) (a : String) (ha : s.active = some a) :
    ∃ s3, import_solver_results tmpPre importColl solverOut s = .ok s3
      ∧ s3.objects = (s.objects ++ importedObjects tmpPre importColl solverOut).map
          (fun o => { o with selected := (selectedNames s).contains o.name })
      ∧ s3.active = some a ∧ s3.mode = s.mode ∧ s3.collections = s.collections :=
  ⟨_, import_solver_ok tmpPre importColl solverOut s a ha, rfl, rfl, rfl, rfl⟩

/-- `upsert_collection`. -/
def upsert_collection (name : String) (s : Scene) : Scene :=
  if s.collections.contains name then s
  else { s with collections := s.collections ++ [name] }

/-- The reconciliation loop of `execute`: unlink each returned hull from all
its collections, link it to the hull collection, and parent it to the root
(hull references modelled by their — unique — names). -/
def attachHulls (rootName hullColl : String) (hullNames : List String) (s : Scene) : Scene :=
  { s with objects := s.objects.map (fun o =>
      if hullNames.contains o.name then
        { o with collections := [hullColl], parent := some rootName }
      else o) }

/-- `ConvexDecompositionRunOperator.execute` for the VHACD backend.  Each
guarded step threads the `AssertionError` path: a `.error` aborts the
operator with the `assertionError` outcome and the events of the work done
so far (the stale-hull deletion happens before its guard's exit, and the
temp-file write before the export guard's exit). -/
def pipelineExecute (tmpPre hullColl importColl : String) (binary : FsPath)
    (fs : List FsPath) (vp : VHACDProps) (tmpDir : FsPath) (proc : ProcResult)
    (solverOut : List String) (s : Scene) : RunResult :=
  if s.mode != "OBJECT" then ⟨s, [], .precondFailed⟩
  else
    match selectedObjects s with
    | [root] =>
      match remove_stale_hulls root.name s with
      | .error sc => ⟨sc, [.removedStale], .assertionError⟩
      | .ok s1 =>
        let objPath := tmpDir ++ ["src.obj"]
        match export_mesh_for_solver root.name s1 with
        | .error sc => ⟨sc, [.removedStale, .createdTempDir, .wroteTempFile], .assertionError⟩
        | .ok s2 =>
          let evs := [PipelineEv.removedStale, .createdTempDir, .wroteTempFile]
          if fs.contains binary then
            let run := run_vhacd objPath vp binary proc
            let evs2 := evs ++ [PipelineEv.ranSolver run.cmd run.cwd]
            match import_solver_results tmpPre importColl solverOut s2 with
            | .error sc => ⟨sc, evs2 ++ [PipelineEv.importedResults], .assertionError⟩
            | .ok s3 =>
              let evs3 := evs2 ++ [PipelineEv.importedResults]
              let renamed := rename_hulls tmpPre root.name s3
              let s5 := upsert_collection hullColl renamed.1
              let s6 := attachHulls root.name hullColl renamed.2 s5
              ⟨s6, evs3, .finished⟩
          else ⟨s2, evs, .launchError⟩
    | _ => ⟨s, [], .precondFailed⟩

/-- `is_valid_solver` of `ConvexDecompositionPanel.draw`: the binary path
must have a non-empty final component and exist on disk. -/
def is_valid_solver (fs : List FsPath) (binary : FsPath) : Bool :=
  (pathName binary != "") && fs.contains binary

/-- The panel only offers the Run button when `is_valid_solver` holds;
otherwise the row shows `Set Binary in Preferences` and is disabled. -/
def runButtonEnabled (fs : List FsPath) (binary : FsPath) : Bool :=
  is_valid_solver fs binary

/-! ### Supporting facts for the pipeline theorems -/

theorem not_ucxPre_self (n : String) : strStartsWith n (ucxPre n) = false := by
  cases e : strStartsWith n (ucxPre n) with
  | false => rfl
  | true =>
    exfalso
    unfold strStartsWith at e
    rw [List.isPrefixOf_iff_prefix] at e
    have hlen := e.length_le
    have hd : (ucxPre n).data.length = n.data.length + 5 := by
      unfold ucxPre
      rw [String.data_append, String.data_append]
      simp
    omega

theorem filter_contains_singleton {l : List String} (x : String) (hx : x ∈ l)
    (hn : l.Nodup) : l.filter (fun n => [x].contains n) = [x] :=
  filter_contains_of_sublist (List.singleton_sublist.mpr hx) hn

theorem mem_upsert_collection (name : String) (sc : Scene) :
    name ∈ (upsert_collection name sc).collections := by
  unfold upsert_collection
  by_cases h : sc.collections.contains name = true
  · rw [if_pos h]
    exact List.elem_iff.mp h
  · rw [if_neg h]
    simp

theorem importedHullNamesAux_mem (tmpPre : String) :
    ∀ (lines : List String) (i : Nat) (n : String),
    n ∈ importedHullNamesAux tmpPre i lines → ∃ j, n = tmpPre ++ natStr j := by
  intro lines
  induction lines with
  | nil => intro i n h; simp [importedHullNamesAux] at h
  | cons line rest ih =>
    intro i n h
    by_cases ho : strStartsWith line "o " = true
    · rw [importedHullNamesAux, if_pos ho] at h
      rcases List.mem_cons.mp h with rfl | h2
      · exact ⟨i, rfl⟩
      · exact ih (i + 1) n h2
    · rw [importedHullNamesAux, if_neg ho] at h
      exact ih (i + 1) n h

theorem importedHullNamesAux_length (tmpPre : String) :
    ∀ (lines : List String) (i : Nat),
    (importedHullNamesAux tmpPre i lines).length
      = (lines.filter (fun l => strStartsWith l "o ")).length := by
  intro lines
  induction lines with
  | nil => intro i; rfl
  | cons line rest ih =>
    intro i
    by_cases ho : strStartsWith line "o " = true
    · rw [importedHullNamesAux, if_pos ho]
      simp [List.filter_cons, ho, ih (i + 1)]
    · have ho2 : strStartsWith line "o " = false := by
        cases e : strStartsWith line "o " with
        | false => rfl
        | true => exact absurd e ho
      rw [importedHullNamesAux, if_neg ho]
      simp [List.filter_cons, ho2, ih (i + 1)]

theorem renameHullsAux_append_nomatch (hullPre rootName : String) :
    ∀ (xs ys : List SceneObject) (i : Nat),
    (∀ o ∈ xs, strStartsWith o.name hullPre = false) →
    renameHullsAux hullPre rootName i (xs ++ ys)
      = (xs ++ (renameHullsAux hullPre rootName i ys).1,
         (renameHullsAux hullPre rootName i ys).2) := by
  intro xs
  induction xs with
  | nil => intro ys i _; simp
  | cons o rest ih =>
    intro ys i h
    have ho := h o (List.mem_cons_self ..)
    rw [List.cons_append, renameHullsAux, ho]
    simp only [Bool.false_eq_true, if_false]
    rw [ih ys i (fun x hx => h x (List.mem_cons_of_mem _ hx))]
    rfl

/-- The all-match renaming: the `j`-th object gets index `i + j`. -/
def renameSeq (rootName : String) : Nat → List SceneObject → List SceneObject
  | _, [] => []
  | i, o :: rest => { o with name := ucxName rootName i } :: renameSeq rootName (i + 1) rest

theorem renameHullsAux_allmatch (hullPre rootName : String) :
    ∀ (ys : List SceneObject) (i : Nat),
    (∀ o ∈ ys, strStartsWith o.name hullPre = true) →
    (renameHullsAux hullPre rootName i ys).1 = renameSeq rootName i ys := by
  intro ys
  induction ys with
  | nil => intro i _; rfl
  | cons o rest ih =>
    intro i h
    rw [renameHullsAux, h o (List.mem_cons_self ..)]
    simp only [if_true, renameSeq]
    rw [ih (i + 1) (fun x hx => h x (List.mem_cons_of_mem _ hx))]

theorem renameSeq_attach (rootName hullColl : String) (hn : List String) :
    ∀ (xs : List SceneObject) (i : Nat),
    (∀ o ∈ xs, o.selected = false) →
    (∀ j, i ≤ j → j < i + xs.length → hn.contains (ucxName rootName j) = true) →
    (renameSeq rootName i xs).map (fun o =>
        if hn.contains o.name then
          { o with collections := [hullColl], parent := some rootName }
        else o)
      = (List.range xs.length).map
          (fun j => SceneObject.mk (ucxName rootName (i + j)) (some rootName) [hullColl] false) := by
  intro xs
  induction xs with
  | nil => intro i _ _; rfl
  | cons o rest ih =>
    intro i hsel hcont
    rw [renameSeq, List.map_cons]
    have hc : hn.contains (ucxName rootName i) = true :=
      hcont i (le_refl i) (by simp)
    simp only [hc, if_true]
    rw [ih (i + 1) (fun x hx => hsel x (List.mem_cons_of_mem _ hx))
      (fun j hj1 hj2 => hcont j (by omega) (by simp at hj2 ⊢; omega))]
    rw [List.length_cons, List.range_succ_eq_map, List.map_cons, List.map_map]
    have hhead : ({ o with name := ucxName rootName i, collections := [hullColl], parent := some rootName } : SceneObject)
        = SceneObject.mk (ucxName rootName (i + 0)) (some rootName) [hullColl] false := by
      have hf := hsel o (List.mem_cons_self ..)
      simp [hf]
    have htail : (fun j => SceneObject.mk (ucxName rootName (i + 1 + j))
          (some rootName) [hullColl] false)
        = ((fun j => SceneObject.mk (ucxName rootName (i + j))
            (some rootName) [hullColl] false) ∘ Nat.succ) := by
      funext j
      simp only [Function.comp_apply]
      have harith : i + 1 + j = i + (j + 1) := by omega
      rw [harith]
    rw [hhead, htail]

/-- The selected names of an object table. -/
def namesSelectedBy (objs : List SceneObject) : List String :=
  (objs.filter (fun o => o.selected)).map (fun o => o.name)

theorem selectedNames_eq_namesSelectedBy (s : Scene) :
    selectedNames s = namesSelectedBy s.objects := rfl

theorem namesSelectedBy_flagmap (objs : List SceneObject) (f : String → Bool) :
    namesSelectedBy (objs.map (fun o => { o with selected := f o.name }))
      = (objs.map (fun o => o.name)).filter f := by
  unfold namesSelectedBy
  simp only [List.filter_map, List.map_map]
  rfl

theorem namesSelectedBy_append (xs ys : List SceneObject) :
    namesSelectedBy (xs ++ ys) = namesSelectedBy xs ++ namesSelectedBy ys := by
  unfold namesSelectedBy
  rw [List.filter_append, List.map_append]

theorem flagmap_flagmap (f g : String → Bool) (objs : List SceneObject) :
    (objs.map (fun o => { o with selected := f o.name })).map
        (fun o => { o with selected := g o.name })
      = objs.map (fun o => { o with selected := g o.name }) := by
  rw [List.map_map]
  rfl

theorem upsert_collection_objects (name : String) (sc : Scene) :
    (upsert_collection name sc).objects = sc.objects := by
  unfold upsert_collection
  by_cases h : sc.collections.contains name = true
  · rw [if_pos h]
  · rw [if_neg h]

theorem upsert_collection_active (name : String) (sc : Scene) :
    (upsert_collection name sc).active = sc.active := by
  unfold upsert_collection
  by_cases h : sc.collections.contains name = true
  · rw [if_pos h]
  · rw [if_neg h]

theorem attachHulls_collections (rootName hullColl : String) (hn : List String)
    (sc : Scene) : (attachHulls rootName hullColl hn sc).collections = sc.collections := rfl

theorem attachHulls_active (rootName hullColl : String) (hn : List String)
    (sc : Scene) : (attachHulls rootName hullColl hn sc).active = sc.active := rfl

/-- After the stale-hull sweep, the selection flags select exactly the root
object (it survives the sweep, and the captured selection was `[root]`). -/
theorem keep_selstage (s : Scene) (root : SceneObject)
    (hsel : selectedObjects s = [root])
    (hnodup : (s.objects.map (fun o => o.name)).Nodup) :
    namesSelectedBy
      ((s.objects.filter (fun o => !(strStartsWith o.name (ucxPre root.name)))).map
        (fun o => { o with selected := ([root.name] : List String).contains o.name }))
      = [root.name] := by
  have hrootmem : root ∈ s.objects := by
    have hmem : root ∈ selectedObjects s := by rw [hsel]; exact List.mem_cons_self ..
    exact (List.mem_filter.mp hmem).1
  have hkeepnodup :
      ((s.objects.filter (fun o => !(strStartsWith o.name (ucxPre root.name)))).map
        (fun o => o.name)).Nodup :=
    hnodup.sublist ((List.filter_sublist s.objects).map (fun o => o.name))
  have hrootkeep : root ∈ s.objects.filter (fun o => !(strStartsWith o.name (ucxPre root.name))) := by
    rw [List.mem_filter]
    refine ⟨hrootmem, ?_⟩
    rw [not_ucxPre_self]
    rfl
  rw [namesSelectedBy_flagmap]
  exact filter_contains_singleton root.name (List.mem_map_of_mem _ hrootkeep) hkeepnodup

/-- Through the stale-hull removal and the export: with an active object
present both guards exit normally, the selection is down to exactly the
root object, and active object, mode and collections are preserved. -/
theorem stale_export_stages (s : Scene) (root : SceneObject) (a : String)
    (hact : s.active = some a)
    (hsel : selectedObjects s = [root])
    (hnodup : (s.objects.map (fun o => o.name)).Nodup) :
    ∃ s1 s2, remove_stale_hulls root.name s = .ok s1
      ∧ export_mesh_for_solver root.name s1 = .ok s2
      ∧ s2.objects = (s.objects.filter (fun o => !(strStartsWith o.name (ucxPre root.name)))).map
          (fun o => { o with selected := ([root.name] : List String).contains o.name })
      ∧ selectedNames s2 = [root.name]
      ∧ s2.active = some a ∧ s2.mode = s.mode ∧ s2.collections = s.collections := by
  have hselnames : selectedNames s = [root.name] := by
    unfold selectedNames
    rw [hsel]
    rfl
  obtain ⟨s1, hrs, h1, hact1, hmode1, hcoll1⟩ := remove_stale_hulls_some root.name s a hact
  rw [hselnames] at h1
  obtain ⟨s2, hex, h2, hact2, hmode2, hcoll2⟩ := export_mesh_some root.name s1 a hact1
  have hselstage := keep_selstage s root hsel hnodup
  have hsel1 : selectedNames s1 = [root.name] := by
    rw [selectedNames_eq_namesSelectedBy, h1]
    exact hselstage
  have h2f : s2.objects
      = (s.objects.filter (fun o => !(strStartsWith o.name (ucxPre root.name)))).map
          (fun o => { o with selected := ([root.name] : List String).contains o.name }) := by
    rw [h2, hsel1, h1, flagmap_flagmap]
  have hsel2 : selectedNames s2 = [root.name] := by
    rw [selectedNames_eq_namesSelectedBy, h2f]
    exact hselstage
  exact ⟨s1, s2, hrs, hex, h2f, hsel2, hact2, by rw [hmode2, hmode1], by rw [hcoll2, hcoll1]⟩

/-- **C3, counterexample.**  The claim promises the hulls, the parenting
and the final selection for any run over one selected source object, but a
scene in OBJECT mode with exactly one selected source object `Barrel` and
*no active object* — reachable in Blender, e.g. after the active object is
deleted and another object is box-selected — aborts instead:
`SelectionGuard.__exit__` runs `assert self.active is not None` after its
deselect-all, so the first guard (inside `remove_stale_hulls`) raises
`AssertionError`, and the run ends with no hulls produced and everything
deselected. -/
theorem C3_counterexample :
    selectedObjects ⟨[⟨"Barrel", none, ["Scene"], true⟩], none, "OBJECT", ["Scene"]⟩
      = [⟨"Barrel", none, ["Scene"], true⟩]
    ∧ (pipelineExecute "_tmphull_" "convex hulls" "Scene" ["usr", "bin", "TestVHACD"]
        [["usr", "bin", "TestVHACD"]] ⟨100000, 10, 64, 2, "10.0", true, false, "flood"⟩
        ["tmp", "devcomp0"] ⟨0, "", ""⟩
        ["o ConvexHull_0", "v 0 0 0", "o ConvexHull_1", "v 1 1 1", "o ConvexHull_2"]
        ⟨[⟨"Barrel", none, ["Scene"], true⟩], none, "OBJECT", ["Scene"]⟩).outcome
      = RunOutcome.assertionError
    ∧ RunOutcome.assertionError ≠ RunOutcome.finished
    ∧ (pipelineExecute "_tmphull_" "convex hulls" "Scene" ["usr", "bin", "TestVHACD"]
        [["usr", "bin", "TestVHACD"]] ⟨100000, 10, 64, 2, "10.0", true, false, "flood"⟩
        ["tmp", "devcomp0"] ⟨0, "", ""⟩
        ["o ConvexHull_0", "v 0 0 0", "o ConvexHull_1", "v 1 1 1", "o ConvexHull_2"]
        ⟨[⟨"Barrel", none, ["Scene"], true⟩], none, "OBJECT", ["Scene"]⟩).scene.objects.filter
          (fun o => strStartsWith o.name (ucxPre "Barrel")) = []
    ∧ selectedNames (pipelineExecute "_tmphull_" "convex hulls" "Scene" ["usr", "bin", "TestVHACD"]
        [["usr", "bin", "TestVHACD"]] ⟨100000, 10, 64, 2, "10.0", true, false, "flood"⟩
        ["tmp", "devcomp0"] ⟨0, "", ""⟩
        ["o ConvexHull_0", "v 0 0 0", "o ConvexHull_1", "v 1 1 1", "o ConvexHull_2"]
        ⟨[⟨"Barrel", none, ["Scene"], true⟩], none, "OBJECT", ["Scene"]⟩).scene = [] := by
  refine ⟨by decide, by decide, by decide, by decide, by decide⟩

/-- **C3** (amended): with an active object present, running the pipeline
in OBJECT mode with exactly one selected source object, a clean scene
(unique names, no object bearing the temporary hull prefix) and an existing
solver binary, where the solver returns `k` output segments (object-name
lines), finishes and produces exactly `k` hulls named
`UCX_<source>_0 .. UCX_<source>_(k-1)` — the index being the hull's
position in solver-output (import) order — each parented to the source
object and linked only to the hull collection (which exists in the scene);
the final selection is exactly the source object and the active object is
restored.  The active-object premise is forced by the code: without one,
the first guard raises `AssertionError` (see the counterexample). -/
theorem C3_amended (tmpPre hullColl importColl : String) (binary : FsPath)
    (fs : List FsPath) (vp : VHACDProps) (tmpDir : FsPath) (proc : ProcResult)
    (solverOut : List String) (s : Scene) (root : SceneObject) (a : String) (res : RunResult)
    (hres : pipelineExecute tmpPre hullColl importColl binary fs vp tmpDir proc solverOut s = res)
    (hmode : s.mode = "OBJECT")
    (hact : s.active = some a)
    (hsel : selectedObjects s = [root])
    (hnodup : (s.objects.map (fun o => o.name)).Nodup)
    (htmp : ∀ o ∈ s.objects, strStartsWith o.name tmpPre = false)
    (hbin : fs.contains binary = true) :
    res.outcome = RunOutcome.finished
    ∧ (res.scene.objects.filter (fun o => strStartsWith o.name (ucxPre root.name))).map (fun o => o.name)
        = (List.range ((solverOut.filter (fun l => strStartsWith l "o ")).length)).map (fun j => ucxName root.name j)
    ∧ (∀ o ∈ res.scene.objects, strStartsWith o.name (ucxPre root.name) = true →
        o.parent = some root.name ∧ o.collections = [hullColl])
    ∧ hullColl ∈ res.scene.collections
    ∧ selectedNames res.scene = [root.name]
    ∧ res.scene.active = s.active := by
  subst hres
  -- Base facts
  have hrootmem : root ∈ s.objects := by
    have hmem : root ∈ selectedObjects s := by rw [hsel]; exact List.mem_cons_self ..
    exact (List.mem_filter.mp hmem).1
  have hrootntmp : strStartsWith root.name tmpPre = false := htmp root hrootmem
  have hselstage := keep_selstage s root hsel hnodup
  -- Stages 1-2: stale-hull removal and export (guards exit normally)
  obtain ⟨s1, s2, hrs, hex, h2, hsel2, hact2, hmode2, hcoll2⟩ :=
    stale_export_stages s root a hact hsel hnodup
  -- Stage 3: import_solver_results
  obtain ⟨s3, him, h3raw, hact3, hmode3, hcoll3⟩ :=
    import_solver_some tmpPre importColl solverOut s2 a hact2
  have hnewflag : (importedObjects tmpPre importColl solverOut).map
        (fun o => { o with selected := ([root.name] : List String).contains o.name })
      = (importedHullNames tmpPre solverOut).map
          (fun n => SceneObject.mk n none [importColl] false) := by
    unfold importedObjects
    rw [List.map_map]
    apply List.map_congr_left
    intro n hn
    obtain ⟨j, rfl⟩ := importedHullNamesAux_mem tmpPre solverOut 0 n hn
    have hne : (tmpPre ++ natStr j) ≠ root.name := by
      intro he
      have hc := strStartsWith_concat tmpPre (natStr j)
      rw [he] at hc
      rw [hc] at hrootntmp
      exact Bool.noConfusion hrootntmp
    simp only [Function.comp, List.contains_cons]
    simp
    exact hne
  have h3 : s3.objects
      = ((s.objects.filter (fun o => !(strStartsWith o.name (ucxPre root.name)))).map
          (fun o => { o with selected := ([root.name] : List String).contains o.name }))
        ++ (importedHullNames tmpPre solverOut).map
            (fun n => SceneObject.mk n none [importColl] false) := by
    rw [h3raw, hsel2, h2, List.map_append, flagmap_flagmap, hnewflag]
  -- Stage 4: rename_hulls over the combined table
  have hnomatch : ∀ o ∈ (s.objects.filter (fun o => !(strStartsWith o.name (ucxPre root.name)))).map (fun o => { o with selected := ([root.name] : List String).contains o.name }), strStartsWith o.name tmpPre = false := by
    intro o ho
    obtain ⟨o0, ho0, rfl⟩ := List.mem_map.mp ho
    exact htmp o0 (List.mem_filter.mp ho0).1
  have hallmatch : ∀ o ∈ (importedHullNames tmpPre solverOut).map (fun n => SceneObject.mk n none [importColl] false), strStartsWith o.name tmpPre = true := by
    intro o ho
    obtain ⟨n, hn, rfl⟩ := List.mem_map.mp ho
    obtain ⟨j, rfl⟩ := importedHullNamesAux_mem tmpPre solverOut 0 n hn
    exact strStartsWith_concat tmpPre (natStr j)
  have hrenaux : renameHullsAux tmpPre root.name 0
        (((s.objects.filter (fun o => !(strStartsWith o.name (ucxPre root.name)))).map (fun o => { o with selected := ([root.name] : List String).contains o.name }))
          ++ (importedHullNames tmpPre solverOut).map (fun n => SceneObject.mk n none [importColl] false))
      = (((s.objects.filter (fun o => !(strStartsWith o.name (ucxPre root.name)))).map (fun o => { o with selected := ([root.name] : List String).contains o.name }))
          ++ renameSeq root.name 0 ((importedHullNames tmpPre solverOut).map (fun n => SceneObject.mk n none [importColl] false)),
         (renameHullsAux tmpPre root.name 0 ((importedHullNames tmpPre solverOut).map (fun n => SceneObject.mk n none [importColl] false))).2) := by
    rw [renameHullsAux_append_nomatch tmpPre root.name _ _ 0 hnomatch,
      renameHullsAux_allmatch tmpPre root.name _ 0 hallmatch]
  have hsnd : (renameHullsAux tmpPre root.name 0 ((importedHullNames tmpPre solverOut).map (fun n => SceneObject.mk n none [importColl] false))).2
      = (List.range (importedHullNames tmpPre solverOut).length).map (fun j => ucxName root.name j) := by
    rw [renameHullsAux_snd]
    rw [List.filter_eq_self.mpr hallmatch]
    simp
  have h4obj : (rename_hulls tmpPre root.name s3).1.objects
      = ((s.objects.filter (fun o => !(strStartsWith o.name (ucxPre root.name)))).map (fun o => { o with selected := ([root.name] : List String).contains o.name }))
        ++ renameSeq root.name 0 ((importedHullNames tmpPre solverOut).map (fun n => SceneObject.mk n none [importColl] false)) := by
    unfold rename_hulls
    dsimp only
    rw [h3, hrenaux]
  have h4names : (rename_hulls tmpPre root.name s3).2
      = (List.range (importedHullNames tmpPre solverOut).length).map (fun j => ucxName root.name j) := by
    unfold rename_hulls
    dsimp only
    rw [h3, hrenaux, hsnd]
  -- Stage 5/6: attach
  have hucxpre : ∀ j : Nat, strStartsWith (ucxName root.name j) (ucxPre root.name) = true :=
    fun j => strStartsWith_concat (ucxPre root.name) (natStr j)
  have hselfalse : ∀ o ∈ (importedHullNames tmpPre solverOut).map (fun n => SceneObject.mk n none [importColl] false), o.selected = false := by
    intro o ho
    obtain ⟨n, hn, rfl⟩ := List.mem_map.mp ho
    rfl
  have hcontains : ∀ j : Nat, 0 ≤ j →
      j < 0 + ((importedHullNames tmpPre solverOut).map (fun n => SceneObject.mk n none [importColl] false)).length →
      ((List.range (importedHullNames tmpPre solverOut).length).map (fun j2 => ucxName root.name j2)).contains (ucxName root.name j) = true := by
    intro j _ hj
    apply List.elem_iff.mpr
    apply List.mem_map_of_mem
    apply List.mem_range.mpr
    simpa using hj
  have hfinal : (attachHulls root.name hullColl
        (rename_hulls tmpPre root.name s3).2
        (upsert_collection hullColl (rename_hulls tmpPre root.name s3).1)).objects
      = ((s.objects.filter (fun o => !(strStartsWith o.name (ucxPre root.name)))).map (fun o => { o with selected := ([root.name] : List String).contains o.name }))
        ++ (List.range (importedHullNames tmpPre solverOut).length).map (fun j => SceneObject.mk (ucxName root.name j) (some root.name) [hullColl] false) := by
    rw [h4names]
    unfold attachHulls
    dsimp only
    rw [upsert_collection_objects, h4obj, List.map_append]
    congr 1
    · have hskip : ∀ o ∈ (s.objects.filter (fun o => !(strStartsWith o.name (ucxPre root.name)))).map (fun o => { o with selected := ([root.name] : List String).contains o.name }),
          (if ((List.range (importedHullNames tmpPre solverOut).length).map (fun j => ucxName root.name j)).contains o.name then { o with collections := [hullColl], parent := some root.name } else o) = o := by
        intro o ho
        obtain ⟨o0, ho0, rfl⟩ := List.mem_map.mp ho
        have hpref := (List.mem_filter.mp ho0).2
        have hnc : ((List.range (importedHullNames tmpPre solverOut).length).map (fun j => ucxName root.name j)).contains o0.name = false := by
          cases e : ((List.range (importedHullNames tmpPre solverOut).length).map (fun j => ucxName root.name j)).contains o0.name with
          | false => rfl
          | true =>
            exfalso
            obtain ⟨j, _, hje⟩ := List.mem_map.mp (List.elem_iff.mp e)
            rw [← hje] at hpref
            rw [hucxpre j] at hpref
            exact Bool.noConfusion hpref
        simp [hnc]
        intro x hx heq
        rw [← heq] at hpref
        rw [hucxpre x] at hpref
        simp at hpref
      calc ((s.objects.filter (fun o => !(strStartsWith o.name (ucxPre root.name)))).map (fun o => { o with selected := ([root.name] : List String).contains o.name })).map
            (fun o => if ((List.range (importedHullNames tmpPre solverOut).length).map (fun j => ucxName root.name j)).contains o.name then { o with collections := [hullColl], parent := some root.name } else o)
          = ((s.objects.filter (fun o => !(strStartsWith o.name (ucxPre root.name)))).map (fun o => { o with selected := ([root.name] : List String).contains o.name })).map id := List.map_congr_left hskip
        _ = _ := List.map_id _
    · rw [renameSeq_attach root.name hullColl _ _ 0 hselfalse hcontains]
      simp
  -- Reduce the pipeline to its finished result
  unfold pipelineExecute
  rw [hmode, hsel]
  simp only [bne_self_eq_false, Bool.false_eq_true, if_false, hrs, hex, him, hbin, if_true]
  -- Conclusions
  refine ⟨trivial, ?_, ?_, ?_, ?_, ?_⟩
  · rw [hfinal, List.filter_append]
    have hf1 : (((s.objects.filter (fun o => !(strStartsWith o.name (ucxPre root.name)))).map (fun o => { o with selected := ([root.name] : List String).contains o.name }))).filter (fun o => strStartsWith o.name (ucxPre root.name)) = [] := by
      rw [List.filter_eq_nil_iff]
      intro o ho
      obtain ⟨o0, ho0, rfl⟩ := List.mem_map.mp ho
      have hpref := (List.mem_filter.mp ho0).2
      simp only [Bool.not_eq_eq_eq_not, Bool.not_true] at hpref
      simp [hpref]
    have hf2 : ((List.range (importedHullNames tmpPre solverOut).length).map (fun j => SceneObject.mk (ucxName root.name j) (some root.name) [hullColl] false)).filter (fun o => strStartsWith o.name (ucxPre root.name))
        = (List.range (importedHullNames tmpPre solverOut).length).map (fun j => SceneObject.mk (ucxName root.name j) (some root.name) [hullColl] false) := by
      rw [List.filter_eq_self]
      intro o ho
      obtain ⟨j, _, rfl⟩ := List.mem_map.mp ho
      exact hucxpre j
    have hKlen : (importedHullNames tmpPre solverOut).length
        = (solverOut.filter (fun l => strStartsWith l "o ")).length :=
      importedHullNamesAux_length tmpPre solverOut 0
    rw [hf1, hf2, List.nil_append, List.map_map, hKlen]
    rfl
  · intro o ho hpre
    rw [hfinal] at ho
    rcases List.mem_append.mp ho with hold | hnew
    · obtain ⟨o0, ho0, rfl⟩ := List.mem_map.mp hold
      have hpref := (List.mem_filter.mp ho0).2
      rw [hpre] at hpref
      exact Bool.noConfusion hpref
    · obtain ⟨j, _, rfl⟩ := List.mem_map.mp hnew
      exact ⟨rfl, rfl⟩
  · rw [attachHulls_collections]
    exact mem_upsert_collection hullColl _
  · rw [selectedNames_eq_namesSelectedBy, hfinal, namesSelectedBy_append]
    have hnew0 : namesSelectedBy ((List.range (importedHullNames tmpPre solverOut).length).map (fun j => SceneObject.mk (ucxName root.name j) (some root.name) [hullColl] false)) = [] := by
      unfold namesSelectedBy
      rw [List.filter_eq_nil_iff.mpr]
      · rfl
      · intro o ho
        obtain ⟨j, _, rfl⟩ := List.mem_map.mp ho
        simp
    rw [hselstage, hnew0]
    rfl
  · rw [attachHulls_active, upsert_collection_active]
    show s3.active = s.active
    rw [hact3, hact]

/-- Witness for `C3_amended`: the spec's Barrel scenario (active object
present) with a three-segment solver output. -/
theorem C3_amended_witness :
    (pipelineExecute "_tmphull_" "convex hulls" "Scene" ["usr", "bin", "TestVHACD"]
        [["usr", "bin", "TestVHACD"]] ⟨100000, 10, 64, 2, "10.0", true, false, "flood"⟩
        ["tmp", "devcomp0"] ⟨0, "", ""⟩
        ["o ConvexHull_0", "v 0 0 0", "o ConvexHull_1", "v 1 1 1", "o ConvexHull_2"]
        ⟨[⟨"Barrel", none, ["Scene"], true⟩], some "Barrel", "OBJECT", ["Scene"]⟩).outcome
      = RunOutcome.finished
    ∧ ((pipelineExecute "_tmphull_" "convex hulls" "Scene" ["usr", "bin", "TestVHACD"]
        [["usr", "bin", "TestVHACD"]] ⟨100000, 10, 64, 2, "10.0", true, false, "flood"⟩
        ["tmp", "devcomp0"] ⟨0, "", ""⟩
        ["o ConvexHull_0", "v 0 0 0", "o ConvexHull_1", "v 1 1 1", "o ConvexHull_2"]
        ⟨[⟨"Barrel", none, ["Scene"], true⟩], some "Barrel", "OBJECT", ["Scene"]⟩).scene.objects.filter
          (fun o => strStartsWith o.name (ucxPre "Barrel"))).map (fun o => o.name)
      = (List.range (((["o ConvexHull_0", "v 0 0 0", "o ConvexHull_1", "v 1 1 1", "o ConvexHull_2"] : List String).filter
          (fun l => strStartsWith l "o ")).length)).map (fun j => ucxName "Barrel" j)
    ∧ (∀ o ∈ (pipelineExecute "_tmphull_" "convex hulls" "Scene" ["usr", "bin", "TestVHACD"]
        [["usr", "bin", "TestVHACD"]] ⟨100000, 10, 64, 2, "10.0", true, false, "flood"⟩
        ["tmp", "devcomp0"] ⟨0, "", ""⟩
        ["o ConvexHull_0", "v 0 0 0", "o ConvexHull_1", "v 1 1 1", "o ConvexHull_2"]
        ⟨[⟨"Barrel", none, ["Scene"], true⟩], some "Barrel", "OBJECT", ["Scene"]⟩).scene.objects,
        strStartsWith o.name (ucxPre "Barrel") = true →
          o.parent = some "Barrel" ∧ o.collections = ["convex hulls"])
    ∧ "convex hulls" ∈ (pipelineExecute "_tmphull_" "convex hulls" "Scene" ["usr", "bin", "TestVHACD"]
        [["usr", "bin", "TestVHACD"]] ⟨100000, 10, 64, 2, "10.0", true, false, "flood"⟩
        ["tmp", "devcomp0"] ⟨0, "", ""⟩
        ["o ConvexHull_0", "v 0 0 0", "o ConvexHull_1", "v 1 1 1", "o ConvexHull_2"]
        ⟨[⟨"Barrel", none, ["Scene"], true⟩], some "Barrel", "OBJECT", ["Scene"]⟩).scene.collections
    ∧ selectedNames (pipelineExecute "_tmphull_" "convex hulls" "Scene" ["usr", "bin", "TestVHACD"]
        [["usr", "bin", "TestVHACD"]] ⟨100000, 10, 64, 2, "10.0", true, false, "flood"⟩
        ["tmp", "devcomp0"] ⟨0, "", ""⟩
        ["o ConvexHull_0", "v 0 0 0", "o ConvexHull_1", "v 1 1 1", "o ConvexHull_2"]
        ⟨[⟨"Barrel", none, ["Scene"], true⟩], some "Barrel", "OBJECT", ["Scene"]⟩).scene
      = ["Barrel"]
    ∧ (pipelineExecute "_tmphull_" "convex hulls" "Scene" ["usr", "bin", "TestVHACD"]
        [["usr", "bin", "TestVHACD"]] ⟨100000, 10, 64, 2, "10.0", true, false, "flood"⟩
        ["tmp", "devcomp0"] ⟨0, "", ""⟩
        ["o ConvexHull_0", "v 0 0 0", "o ConvexHull_1", "v 1 1 1", "o ConvexHull_2"]
        ⟨[⟨"Barrel", none, ["Scene"], true⟩], some "Barrel", "OBJECT", ["Scene"]⟩).scene.active
      = (⟨[⟨"Barrel", none, ["Scene"], true⟩], some "Barrel", "OBJECT",
          ["Scene"]⟩ : Scene).active :=
  C3_amended "_tmphull_" "convex hulls" "Scene" ["usr", "bin", "TestVHACD"]
    [["usr", "bin", "TestVHACD"]] ⟨100000, 10, 64, 2, "10.0", true, false, "flood"⟩
    ["tmp", "devcomp0"] ⟨0, "", ""⟩
    ["o ConvexHull_0", "v 0 0 0", "o ConvexHull_1", "v 1 1 1", "o ConvexHull_2"]
    ⟨[⟨"Barrel", none, ["Scene"], true⟩], some "Barrel", "OBJECT", ["Scene"]⟩
    ⟨"Barrel", none, ["Scene"], true⟩ "Barrel" _ rfl rfl rfl (by decide) (by decide)
    (by decide) (by decide)

/-- **C4, counterexample.**  The claim says an empty solver binary path
makes the pipeline fail with `SolverMissingError` before any temporary file
is written.  Invoking the operator directly with the empty path, the run
removes stale hulls, creates the temporary directory and writes the temp
input file, and only then fails — with the host's uncaught exception from
`subprocess.run` (a `PermissionError` for the empty path, which `Path("")`
stringifies to `"."`; a `FileNotFoundError` for a missing binary), never a
`SolverMissingError` (no such check, and no such exception, exists in the
operator). -/
theorem C4_counterexample :
    (pipelineExecute "_tmphull_" "convex hulls" "Scene" []
        [["usr", "bin", "TestVHACD"]] ⟨100000, 10, 64, 2, "10.0", true, false, "flood"⟩
        ["tmp", "devcomp0"] ⟨0, "", ""⟩ []
        ⟨[⟨"Cube", none, ["Scene"], true⟩], some "Cube", "OBJECT", ["Scene"]⟩).outcome
      = RunOutcome.launchError
    ∧ RunOutcome.launchError ≠ RunOutcome.solverMissingError
    ∧ PipelineEv.wroteTempFile ∈ (pipelineExecute "_tmphull_" "convex hulls" "Scene" []
        [["usr", "bin", "TestVHACD"]] ⟨100000, 10, 64, 2, "10.0", true, false, "flood"⟩
        ["tmp", "devcomp0"] ⟨0, "", ""⟩ []
        ⟨[⟨"Cube", none, ["Scene"], true⟩], some "Cube", "OBJECT", ["Scene"]⟩).events
    ∧ selectedNames (pipelineExecute "_tmphull_" "convex hulls" "Scene" []
        [["usr", "bin", "TestVHACD"]] ⟨100000, 10, 64, 2, "10.0", true, false, "flood"⟩
        ["tmp", "devcomp0"] ⟨0, "", ""⟩ []
        ⟨[⟨"Cube", none, ["Scene"], true⟩], some "Cube", "OBJECT", ["Scene"]⟩).scene
      = selectedNames ⟨[⟨"Cube", none, ["Scene"], true⟩], some "Cube", "OBJECT", ["Scene"]⟩ := by
  refine ⟨by decide, by decide, by decide, by decide⟩

/-- **C4** (amended): the empty/non-existent binary check lives in the
panel, not the operator — `is_valid_solver` is false for an empty or
missing binary path and the Run button is disabled, so the pipeline cannot
be started from the UI.  Invoked directly with a missing binary on a scene
with an active object, the operator removes stale hulls, creates the temp
directory and writes the temp input file, then fails with the host's
uncaught exception from the process launch (never the spec's
`SolverMissingError`), and the selection and active object are left
restored to their pre-call state.  With no active object it aborts even
earlier: the first guard's `assert self.active is not None` raises
`AssertionError` inside `remove_stale_hulls`, before the temp directory is
created, leaving everything deselected. -/
theorem C4_amended (tmpPre hullColl importColl : String) (binary : FsPath)
    (fs : List FsPath) (vp : VHACDProps) (tmpDir : FsPath) (proc : ProcResult)
    (solverOut : List String) (s : Scene) (root : SceneObject) (res : RunResult)
    (hres : pipelineExecute tmpPre hullColl importColl binary fs vp tmpDir proc solverOut s = res)
    (hmode : s.mode = "OBJECT")
    (hsel : selectedObjects s = [root])
    (hnodup : (s.objects.map (fun o => o.name)).Nodup)
    (hbinmissing : fs.contains binary = false) :
    (∀ fs2 : List FsPath, runButtonEnabled fs2 [] = false)
    ∧ runButtonEnabled fs binary = false
    ∧ (∀ a : String, s.active = some a →
        res.outcome = RunOutcome.launchError
        ∧ res.outcome ≠ RunOutcome.solverMissingError
        ∧ res.events = [PipelineEv.removedStale, PipelineEv.createdTempDir, PipelineEv.wroteTempFile]
        ∧ PipelineEv.wroteTempFile ∈ res.events
        ∧ selectedNames res.scene = selectedNames s
        ∧ res.scene.active = s.active)
    ∧ (s.active = none →
        res.outcome = RunOutcome.assertionError
        ∧ res.events = [PipelineEv.removedStale]
        ∧ PipelineEv.createdTempDir ∉ res.events
        ∧ PipelineEv.wroteTempFile ∉ res.events
        ∧ selectedNames res.scene = []) := by
  subst hres
  have hselnames : selectedNames s = [root.name] := by
    unfold selectedNames
    rw [hsel]
    rfl
  refine ⟨fun fs2 => rfl, ?_, ?_, ?_⟩
  · unfold runButtonEnabled is_valid_solver
    rw [hbinmissing]
    simp
  · intro a hact
    obtain ⟨s1, s2, hrs, hex, h2, hsel2, hact2, hmode2, hcoll2⟩ :=
      stale_export_stages s root a hact hsel hnodup
    unfold pipelineExecute
    rw [hmode, hsel]
    simp only [bne_self_eq_false, Bool.false_eq_true, if_false, hrs, hex, hbinmissing]
    refine ⟨trivial, by decide, trivial, by decide, ?_, ?_⟩
    · rw [hsel2, hselnames]
    · rw [hact2, hact]
  · intro hnone
    have hrs := remove_stale_hulls_none root.name s hnone
    unfold pipelineExecute
    rw [hmode, hsel]
    simp only [bne_self_eq_false, Bool.false_eq_true, if_false, hrs]
    refine ⟨trivial, trivial, by decide, by decide, ?_⟩
    exact selectedNames_deselectAll _

/-- Witness for `C4_amended`: the missing-binary path on a scene with an
active object (temp file written, then failure, selection and active
restored) and the assert-abort path on the same scene without an active
object (no temp directory, selection lost). -/
theorem C4_amended_witness :
    (∀ fs2 : List FsPath, runButtonEnabled fs2 [] = false)
    ∧ runButtonEnabled [["usr", "bin", "TestVHACD"]] [] = false
    ∧ ((pipelineExecute "_tmphull_" "convex hulls" "Scene" []
        [["usr", "bin", "TestVHACD"]] ⟨100000, 10, 64, 2, "10.0", true, false, "flood"⟩
        ["tmp", "devcomp0"] ⟨0, "", ""⟩ []
        ⟨[⟨"Cube", none, ["Scene"], true⟩], some "Cube", "OBJECT", ["Scene"]⟩).outcome
          = RunOutcome.launchError
      ∧ (pipelineExecute "_tmphull_" "convex hulls" "Scene" []
        [["usr", "bin", "TestVHACD"]] ⟨100000, 10, 64, 2, "10.0", true, false, "flood"⟩
        ["tmp", "devcomp0"] ⟨0, "", ""⟩ []
        ⟨[⟨"Cube", none, ["Scene"], true⟩], some "Cube", "OBJECT", ["Scene"]⟩).outcome
          ≠ RunOutcome.solverMissingError
      ∧ (pipelineExecute "_tmphull_" "convex hulls" "Scene" []
        [["usr", "bin", "TestVHACD"]] ⟨100000, 10, 64, 2, "10.0", true, false, "flood"⟩
        ["tmp", "devcomp0"] ⟨0, "", ""⟩ []
        ⟨[⟨"Cube", none, ["Scene"], true⟩], some "Cube", "OBJECT", ["Scene"]⟩).events
          = [PipelineEv.removedStale, PipelineEv.createdTempDir, PipelineEv.wroteTempFile]
      ∧ PipelineEv.wroteTempFile ∈ (pipelineExecute "_tmphull_" "convex hulls" "Scene" []
        [["usr", "bin", "TestVHACD"]] ⟨100000, 10, 64, 2, "10.0", true, false, "flood"⟩
        ["tmp", "devcomp0"] ⟨0, "", ""⟩ []
        ⟨[⟨"Cube", none, ["Scene"], true⟩], some "Cube", "OBJECT", ["Scene"]⟩).events
      ∧ selectedNames (pipelineExecute "_tmphull_" "convex hulls" "Scene" []
        [["usr", "bin", "TestVHACD"]] ⟨100000, 10, 64, 2, "10.0", true, false, "flood"⟩
        ["tmp", "devcomp0"] ⟨0, "", ""⟩ []
        ⟨[⟨"Cube", none, ["Scene"], true⟩], some "Cube", "OBJECT", ["Scene"]⟩).scene
          = selectedNames ⟨[⟨"Cube", none, ["Scene"], true⟩], some "Cube", "OBJECT", ["Scene"]⟩
      ∧ (pipelineExecute "_tmphull_" "convex hulls" "Scene" []
        [["usr", "bin", "TestVHACD"]] ⟨100000, 10, 64, 2, "10.0", true, false, "flood"⟩
        ["tmp", "devcomp0"] ⟨0, "", ""⟩ []
        ⟨[⟨"Cube", none, ["Scene"], true⟩], some "Cube", "OBJECT", ["Scene"]⟩).scene.active
          = (⟨[⟨"Cube", none, ["Scene"], true⟩], some "Cube", "OBJECT",
              ["Scene"]⟩ : Scene).active)
    ∧ ((pipelineExecute "_tmphull_" "convex hulls" "Scene" []
        [["usr", "bin", "TestVHACD"]] ⟨100000, 10, 64, 2, "10.0", true, false, "flood"⟩
        ["tmp", "devcomp0"] ⟨0, "", ""⟩ []
        ⟨[⟨"Cube", none, ["Scene"], true⟩], none, "OBJECT", ["Scene"]⟩).outcome
          = RunOutcome.assertionError
      ∧ (pipelineExecute "_tmphull_" "convex hulls" "Scene" []
        [["usr", "bin", "TestVHACD"]] ⟨100000, 10, 64, 2, "10.0", true, false, "flood"⟩
        ["tmp", "devcomp0"] ⟨0, "", ""⟩ []
        ⟨[⟨"Cube", none, ["Scene"], true⟩], none, "OBJECT", ["Scene"]⟩).events
          = [PipelineEv.removedStale]
      ∧ PipelineEv.createdTempDir ∉ (pipelineExecute "_tmphull_" "convex hulls" "Scene" []
        [["usr", "bin", "TestVHACD"]] ⟨100000, 10, 64, 2, "10.0", true, false, "flood"⟩
        ["tmp", "devcomp0"] ⟨0, "", ""⟩ []
        ⟨[⟨"Cube", none, ["Scene"], true⟩], none, "OBJECT", ["Scene"]⟩).events
      ∧ PipelineEv.wroteTempFile ∉ (pipelineExecute "_tmphull_" "convex hulls" "Scene" []
        [["usr", "bin", "TestVHACD"]] ⟨100000, 10, 64, 2, "10.0", true, false, "flood"⟩
        ["tmp", "devcomp0"] ⟨0, "", ""⟩ []
        ⟨[⟨"Cube", none, ["Scene"], true⟩], none, "OBJECT", ["Scene"]⟩).events
      ∧ selectedNames (pipelineExecute "_tmphull_" "convex hulls" "Scene" []
        [["usr", "bin", "TestVHACD"]] ⟨100000, 10, 64, 2, "10.0", true, false, "flood"⟩
        ["tmp", "devcomp0"] ⟨0, "", ""⟩ []
        ⟨[⟨"Cube", none, ["Scene"], true⟩], none, "OBJECT", ["Scene"]⟩).scene = []) :=
  ⟨(C4_amended "_tmphull_" "convex hulls" "Scene" [] [["usr", "bin", "TestVHACD"]]
      ⟨100000, 10, 64, 2, "10.0", true, false, "flood"⟩ ["tmp", "devcomp0"] ⟨0, "", ""⟩ []
      ⟨[⟨"Cube", none, ["Scene"], true⟩], some "Cube", "OBJECT", ["Scene"]⟩
      ⟨"Cube", none, ["Scene"], true⟩ _ rfl rfl (by decide) (by decide) (by decide)).1,
   (C4_amended "_tmphull_" "convex hulls" "Scene" [] [["usr", "bin", "TestVHACD"]]
      ⟨100000, 10, 64, 2, "10.0", true, false, "flood"⟩ ["tmp", "devcomp0"] ⟨0, "", ""⟩ []
      ⟨[⟨"Cube", none, ["Scene"], true⟩], some "Cube", "OBJECT", ["Scene"]⟩
      ⟨"Cube", none, ["Scene"], true⟩ _ rfl rfl (by decide) (by decide) (by decide)).2.1,
   (C4_amended "_tmphull_" "convex hulls" "Scene" [] [["usr", "bin", "TestVHACD"]]
      ⟨100000, 10, 64, 2, "10.0", true, false, "flood"⟩ ["tmp", "devcomp0"] ⟨0, "", ""⟩ []
      ⟨[⟨"Cube", none, ["Scene"], true⟩], some "Cube", "OBJECT", ["Scene"]⟩
      ⟨"Cube", none, ["Scene"], true⟩ _ rfl rfl (by decide) (by decide) (by decide)).2.2.1
      "Cube" rfl,
   (C4_amended "_tmphull_" "convex hulls" "Scene" [] [["usr", "bin", "TestVHACD"]]
      ⟨100000, 10, 64, 2, "10.0", true, false, "flood"⟩ ["tmp", "devcomp0"] ⟨0, "", ""⟩ []
      ⟨[⟨"Cube", none, ["Scene"], true⟩], none, "OBJECT", ["Scene"]⟩
      ⟨"Cube", none, ["Scene"], true⟩ _ rfl rfl (by decide) (by decide) (by decide)).2.2.2
      rfl⟩
